import Mathlib

/-!
# twopdocs: schema generation for protobuf service documentation

A shallow embedding of `dump.go` (the intermediate document, `whitewash`,
`resolveTypes`, `readMessage`) and of `openapi.go` (`EnumSchema`,
`MessageSchema`, `fieldSchema`, `findMessage`, `findEnum`, `createOperation`,
`ToOpenAPI`), followed by theorems about them.

Go maps are association lists with replace-on-insert, Go errors are values of
an inductive type with one constructor per `fmt.Errorf` call site, and a Go
pointer that may be nil is an `Option`. Go strings are Lean strings, read as
lists of characters. The types and functions of the library `openapi3` are
given as far as the generator uses them.
-/

namespace Twopdocs

/-! ## Intermediate document (`dump.go`) -/

/-- The Go struct `EnumValue`. -/
structure EnumValue where
  Name : String := ""
  Number : String := ""
  Description : String := ""
  deriving DecidableEq, Repr, Inhabited

/-- The Go struct `Enum`. -/
structure Enum where
  Name : String := ""
  FullName : String := ""
  Description : String := ""
  Values : List EnumValue := []
  deriving DecidableEq, Repr, Inhabited

/-- The Go struct `MessageField`; `Type_` is its field `Type`. -/
structure MessageField where
  Name : String := ""
  Description : String := ""
  Type_ : String := ""
  FullType : String := ""
  IsRepeated : Bool := false
  IsMap : Bool := false
  IsRequired : Bool := false
  MapKey : String := ""
  MapValue : String := ""
  deriving DecidableEq, Repr, Inhabited

/-- The Go struct `Message`. -/
structure Message where
  Name : String := ""
  FullName : String := ""
  Description : String := ""
  Fields : List MessageField := []
  deriving DecidableEq, Repr, Inhabited

/-- The Go struct `Method`. -/
structure Method where
  Name : String := ""
  Description : String := ""
  RequestType : String := ""
  ResponseType : String := ""
  deriving DecidableEq, Repr, Inhabited

/-- The Go struct `Service`. -/
structure Service where
  Name : String := ""
  FullName : String := ""
  Description : String := ""
  Methods : List Method := []
  deriving DecidableEq, Repr, Inhabited

/-- The Go struct `File`. -/
structure File where
  Name : String := ""
  Description : String := ""
  Services : List Service := []
  Messages : List Message := []
  Enums : List Enum := []
  deriving DecidableEq, Repr, Inhabited

/-- The Go struct `Doc`. -/
structure Doc where
  Files : List File := []
  deriving DecidableEq, Repr, Inhabited

/-! ## The part of `openapi3` the generator touches -/

/-- The struct `openapi3.AdditionalProperties`, over the type of schema references. -/
structure AdditionalPropertiesOf (R : Type) where
  Has : Option Bool := none
  Schema : Option R := none

/-- The fields of `openapi3.Schema` that the generator writes, over the type
of schema references; `Type_` is its field `Type` (`*openapi3.Types`, a list of
type names) and `Properties` is the map `openapi3.Schemas`. -/
structure SchemaOf (R : Type) where
  Type_ : Option (List String) := none
  Format : String := ""
  Description : String := ""
  Enum : List String := []
  Items : Option R := none
  Properties : List (String × R) := []
  Required : List String := []
  AdditionalProperties : AdditionalPropertiesOf R := {}

/-- The struct `openapi3.SchemaRef`: a reference string and a schema pointer. -/
inductive SchemaRef where
  | mk (Ref : String) (Value : Option (SchemaOf SchemaRef))

/-- The struct `openapi3.Schema`. -/
abbrev Schema := SchemaOf SchemaRef

/-- The struct `openapi3.AdditionalProperties`. -/
abbrev AdditionalProperties := AdditionalPropertiesOf SchemaRef

/-- The map type `openapi3.Schemas`. -/
abbrev Schemas := List (String × SchemaRef)

/-- Field `Ref` of a schema reference. -/
def SchemaRef.Ref : SchemaRef → String
  | .mk r _ => r

/-- Field `Value` of a schema reference. -/
def SchemaRef.Value : SchemaRef → Option Schema
  | .mk _ v => v

/-- The constant `openapi3.TypeArray`. -/
abbrev TypeArray : String := "array"

/-- The constant `openapi3.TypeObject`. -/
abbrev TypeObject : String := "object"

/-- The constant `openapi3.TypeString`. -/
abbrev TypeString : String := "string"

/-- The constructor `openapi3.NewSchema`: every field at its zero value. -/
def NewSchema : Schema := {}

/-- The constructor `openapi3.NewSchemaRef`. -/
def NewSchemaRef (ref : String) (value : Option Schema) : SchemaRef :=
  .mk ref value

/-- The method `NewRef` of `openapi3.Schema`: a reference holding only the value. -/
def SchemaOf.NewRef (schema : Schema) : SchemaRef :=
  .mk "" (some schema)

/-- Lookup `m[k]` in a Go map: the value and the `ok` flag as an `Option`. -/
def mapGet {V : Type} (m : List (String × V)) (k : String) : Option V :=
  match m with
  | [] => none
  | (k', v) :: rest => if k' = k then some v else mapGet rest k

/-- Assignment `m[k] = v` in a Go map: the entry of an existing key is
replaced, a new key gets a new entry. -/
def mapSet {V : Type} (m : List (String × V)) (k : String) (v : V) : List (String × V) :=
  match m with
  | [] => [(k, v)]
  | (k', v') :: rest => if k' = k then (k, v) :: rest else (k', v') :: mapSet rest k v

/-- The keys of a Go map. -/
def mapKeys {V : Type} (m : List (String × V)) : List String :=
  m.map Prod.fst

/-! ## Schema generator (`openapi.go`) -/

/-- The errors of the generator, one constructor per `fmt.Errorf` call site
(by format string), and `other` for the error of a custom field function. -/
inductive GenError where
  /-- The format `unknown message type %q`. -/
  | unknownMessageType (typeName : String)
  /-- The format `failed to generate %s (%s) schema`. -/
  | failedToGenerate (name fullType : String)
  /-- The format `failed to generate array item schema: %w`. -/
  | arrayItemSchema (err : GenError)
  /-- The format `map key must be a scalar, was: %q`. -/
  | mapKeyMustBeScalar (mapKey : String)
  /-- The format `unhandled field type %s`. -/
  | unhandledFieldType (fullType : String)
  /-- An error made by a custom field function. -/
  | other (msg : String)
  /-- The format `failed to create the operation for %q: %w`. -/
  | failedToCreateOperation (methodName : String) (err : GenError)
  /-- The format `failed to generate schema for %s: %w`. -/
  | failedToGenerateSchema (fullName : String) (err : GenError)
  deriving DecidableEq, Repr

/-- The text of an error, the Go method `Error`; `quote` is the rendering of
the verb `%q` of `fmt`, a function of the Go library. -/
def GenError.Error (quote : String → String) : GenError → String
  | .unknownMessageType typeName => "unknown message type " ++ quote typeName
  | .failedToGenerate name fullType =>
    "failed to generate " ++ name ++ " (" ++ fullType ++ ") schema"
  | .arrayItemSchema err => "failed to generate array item schema: " ++ err.Error quote
  | .mapKeyMustBeScalar mapKey => "map key must be a scalar, was: " ++ quote mapKey
  | .unhandledFieldType fullType => "unhandled field type " ++ fullType
  | .other msg => msg
  | .failedToCreateOperation methodName err =>
    "failed to create the operation for " ++ quote methodName ++ ": " ++ err.Error quote
  | .failedToGenerateSchema fullName err =>
    "failed to generate schema for " ++ fullName ++ ": " ++ err.Error quote

/-- The Go type `CustomFieldFunc`. -/
abbrev CustomFieldFunc := MessageField → Except GenError SchemaRef

/-- The Go struct `SchemaGenerator`; `CustomFields` is a map from type name to
custom field function. -/
structure SchemaGenerator where
  doc : Doc
  CustomFields : List (String × CustomFieldFunc)

/-- The Go function `schemaID`. -/
def schemaID (typeName : String) : String :=
  typeName

/-- The Go function `schemaRef`. -/
def schemaRef (typeName : String) : SchemaRef :=
  NewSchemaRef ("#/components/schemas/" ++ typeName) none

/-- The Go function `GoogleTimestamp`. -/
def GoogleTimestamp (f : MessageField) : Except GenError SchemaRef :=
  let schema := NewSchema
  let schema := { schema with Type_ := some [TypeString] }
  let schema := { schema with Format := "date-time" }
  let schema := { schema with Description := f.Description }
  .ok schema.NewRef

/-- The Go function `NewSchemaGenerator`. -/
def NewSchemaGenerator (doc : Doc) : SchemaGenerator :=
  { doc := doc
    CustomFields := [("google.protobuf.Timestamp", GoogleTimestamp)] }

/-- The Go method `EnumSchema`; the loop appends the name of each value. -/
def EnumSchema (_sg : SchemaGenerator) (e : Enum) : Except GenError SchemaRef :=
  let schema := NewSchema
  let schema := { schema with Description := e.Description }
  let schema := { schema with Type_ := some [TypeString] }
  let schema := e.Values.foldl
    (fun (schema : Schema) v => { schema with Enum := schema.Enum ++ [v.Name] }) schema
  .ok schema.NewRef

/-- The Go variable `scalarTypeMap`. -/
def scalarTypeMap : List (String × String) :=
  [ ("int32", "integer"), ("int64", "integer"),
    ("uint32", "integer"), ("uint64", "integer"),
    ("sint32", "integer"), ("sint64", "integer"),
    ("fixed32", "integer"), ("fixed64", "integer"),
    ("sfixed32", "integer"), ("sfixed64", "integer"),
    ("string", "string"),
    ("bytes", "string"),
    ("double", "number"), ("float", "number"),
    ("bool", "boolean") ]

/-- The inner loop of the Go function `findMessage` over the messages of one file. -/
def findMessageIn (messages : List Message) (name : String) : Option Message :=
  match messages with
  | [] => none
  | m :: rest => if m.FullName = name then some m else findMessageIn rest name

/-- The Go function `findMessage`: the first message with the name in file
order, then declaration order, and the zero `Message` when there is none. -/
def findMessage (files : List File) (name : String) : Message :=
  match files with
  | [] => {}
  | f :: rest =>
    match findMessageIn f.Messages name with
    | some m => m
    | none => findMessage rest name

/-- The inner loop of the Go function `findEnum` over the enums of one file. -/
def findEnumIn (enums : List Enum) (name : String) : Option Enum :=
  match enums with
  | [] => none
  | e :: rest => if e.FullName = name then some e else findEnumIn rest name

/-- The Go function `findEnum`. -/
def findEnum (files : List File) (name : String) : Enum × Bool :=
  match files with
  | [] => ({}, false)
  | f :: rest =>
    match findEnumIn f.Enums name with
    | some e => (e, true)
    | none => findEnum rest name

/-- The measure that decreases along the recursion of `fieldSchema`: the
repeated case clears `IsRepeated`, the map case clears `IsMap`. -/
def fieldRank (f : MessageField) : Nat :=
  (if f.IsRepeated then 2 else 0) + (if f.IsMap then 1 else 0)

/-- The Go method `fieldSchema`. -/
def fieldSchema (sg : SchemaGenerator) (f : MessageField) : Except GenError SchemaRef :=
  match mapGet sg.CustomFields f.FullType with
  | some custom => custom f
  | none =>
    if hr : f.IsRepeated = true then
      let schema := NewSchema
      let schema := { schema with Description := f.Description }
      let schema := { schema with Type_ := some [TypeArray] }
      let itemField := f
      let itemField := { itemField with Description := "" }
      let itemField := { itemField with IsRepeated := false }
      match fieldSchema sg itemField with
      | .error err => .error (.arrayItemSchema err)
      | .ok itemSchema =>
        let schema := { schema with Items := some itemSchema }
        .ok schema.NewRef
    else if hm : f.IsMap = true then
      match mapGet scalarTypeMap f.MapKey with
      | none => .error (.mapKeyMustBeScalar f.MapKey)
      | some _ =>
        let schema := NewSchema
        let schema := { schema with Description := f.Description }
        let schema := { schema with Type_ := some [TypeObject] }
        let itemField := f
        let itemField := { itemField with Description := "" }
        let itemField := { itemField with IsMap := false }
        let itemField := { itemField with FullType := f.MapValue }
        match fieldSchema sg itemField with
        | .error err => .error (.arrayItemSchema err)
        | .ok itemSchema =>
          let schema := { schema with AdditionalProperties := { Schema := some itemSchema } }
          .ok schema.NewRef
    else
      match mapGet scalarTypeMap f.FullType with
      | some scalar =>
        let schema := NewSchema
        let schema := { schema with Description := f.Description }
        let schema := { schema with Type_ := some [scalar] }
        .ok schema.NewRef
      | none =>
        if (findEnum sg.doc.Files f.FullType).2 = true then
          .ok (schemaRef f.FullType)
        else if (findMessage sg.doc.Files f.FullType).Name ≠ "" then
          .ok (schemaRef f.FullType)
        else
          .error (.unhandledFieldType f.FullType)
termination_by fieldRank f
decreasing_by
  all_goals simp_wf
  · simp [fieldRank, hr]
  · have hr' : f.IsRepeated = false := by simpa using hr
    simp [fieldRank, hr', hm]

/-- The loop of the Go method `MessageSchema` over the fields of the message. -/
def MessageSchema.fields (sg : SchemaGenerator) (fields : List MessageField)
    (schema : Schema) : Except GenError Schema :=
  match fields with
  | [] => .ok schema
  | f :: rest =>
    match fieldSchema sg f with
    | .error _ => .error (.failedToGenerate f.Name f.FullType)
    | .ok fs =>
      let schema :=
        if f.IsRequired = true then { schema with Required := schema.Required ++ [f.Name] }
        else schema
      let schema := { schema with Properties := mapSet schema.Properties f.Name fs }
      MessageSchema.fields sg rest schema

/-- The Go method `MessageSchema`. -/
def MessageSchema (sg : SchemaGenerator) (typeName : String) : Except GenError SchemaRef :=
  let schema := NewSchema
  let schema := { schema with Type_ := some [TypeString] }
  let schema := { schema with Properties := [] }
  let msg := findMessage sg.doc.Files typeName
  if msg.Name = "" then
    .error (.unknownMessageType typeName)
  else
    let schema := { schema with Description := msg.Description }
    match MessageSchema.fields sg msg.Fields schema with
    | .error err => .error err
    | .ok schema => .ok schema.NewRef

/-! ## The output document of `openapi3` -/

/-- The struct `openapi3.Info`. -/
structure Info where
  Title : String := ""
  Version : String := ""
  deriving DecidableEq, Repr

/-- The struct `openapi3.Tag`. -/
structure Tag where
  Name : String := ""
  Description : String := ""
  deriving DecidableEq, Repr

/-- The struct `openapi3.SecurityScheme`. -/
structure SecurityScheme where
  Type_ : String := ""
  Scheme : String := ""
  BearerFormat : String := ""
  deriving DecidableEq, Repr

/-- The struct `openapi3.SecuritySchemeRef`. -/
structure SecuritySchemeRef where
  Ref : String := ""
  Value : Option SecurityScheme := none
  deriving DecidableEq, Repr

/-- The map type `openapi3.SecurityRequirement`, from scheme name to scopes. -/
abbrev SecurityRequirement := List (String × List String)

/-- The struct `openapi3.MediaType`. -/
structure MediaType where
  Schema : Option SchemaRef := none

/-- The map type `openapi3.Content`, from media type name to media type. -/
abbrev Content := List (String × MediaType)

/-- The struct `openapi3.RequestBody`. -/
structure RequestBody where
  Content : Content := []

/-- The struct `openapi3.RequestBodyRef`. -/
structure RequestBodyRef where
  Ref : String := ""
  Value : Option RequestBody := none

/-- The struct `openapi3.Response`. -/
structure Response where
  Description : Option String := none
  Content : Content := []

/-- The struct `openapi3.ResponseRef`. -/
structure ResponseRef where
  Ref : String := ""
  Value : Option Response := none

/-- The struct `openapi3.Operation`; `Responses` is the map from status code
to response, nil in a new operation. -/
structure Operation where
  Tags : List String := []
  Summary : String := ""
  Description : String := ""
  RequestBody : Option RequestBodyRef := none
  Responses : Option (List (String × ResponseRef)) := none
  Security : Option (List SecurityRequirement) := none

/-- The struct `openapi3.PathItem`: one operation per HTTP verb. -/
structure PathItem where
  Connect : Option Operation := none
  Delete : Option Operation := none
  Get : Option Operation := none
  Head : Option Operation := none
  Options : Option Operation := none
  Patch : Option Operation := none
  Post : Option Operation := none
  Put : Option Operation := none
  Trace : Option Operation := none

/-- The struct `openapi3.Components`. -/
structure Components where
  Schemas : Schemas := []
  SecuritySchemes : List (String × SecuritySchemeRef) := []

/-- The struct `openapi3.T`, the output document; `Paths` is the map from path
to path item. The pointer `Components` is set on the first lines of
`ToOpenAPI`, before any use, and is the struct itself here. -/
structure T where
  OpenAPI : String := ""
  Info : Option Info := none
  Components : Components := {}
  Tags : List Tag := []
  Paths : List (String × PathItem) := []

/-- The constructor `openapi3.NewJWTSecurityScheme`. -/
def NewJWTSecurityScheme : SecurityScheme :=
  { Type_ := "http", Scheme := "bearer", BearerFormat := "JWT" }

/-- The method `Authenticate` of `openapi3.SecurityRequirement` without scopes. -/
def Authenticate (security : SecurityRequirement) (provider : String) : SecurityRequirement :=
  mapSet security provider []

/-- The constructor `openapi3.NewContentWithJSONSchemaRef`. -/
def NewContentWithJSONSchemaRef (schema : SchemaRef) : Content :=
  [("application/json", { Schema := some schema })]

/-- The method `WithJSONSchemaRef` of `openapi3.RequestBody`. -/
def RequestBody.WithJSONSchemaRef (requestBody : RequestBody) (schema : SchemaRef) :
    RequestBody :=
  { requestBody with Content := NewContentWithJSONSchemaRef schema }

/-- The method `WithJSONSchemaRef` of `openapi3.Response`. -/
def Response.WithJSONSchemaRef (response : Response) (schema : SchemaRef) : Response :=
  { response with Content := NewContentWithJSONSchemaRef schema }

/-- The constructor `openapi3.NewResponses`: the map with the response
`default` of empty description. -/
def NewResponses : List (String × ResponseRef) :=
  [("default", { Value := some { Description := some "" } })]

/-- The method `AddResponse` of `openapi3.Operation` for the status 200: the
response map is made when it is nil and the response is stored under the
decimal status code. -/
def Operation.AddResponse200 (operation : Operation) (response : Response) : Operation :=
  let responses := match operation.Responses with
    | none => NewResponses
    | some responses => responses
  { operation with Responses := some (mapSet responses "200" { Value := some response }) }

/-- The method `SetOperation` of `openapi3.PathItem`; an unsupported method,
on which Go panics, leaves the item as it is. -/
def PathItem.SetOperation (pathItem : PathItem) (method : String) (operation : Operation) :
    PathItem :=
  if method = "CONNECT" then { pathItem with Connect := some operation }
  else if method = "DELETE" then { pathItem with Delete := some operation }
  else if method = "GET" then { pathItem with Get := some operation }
  else if method = "HEAD" then { pathItem with Head := some operation }
  else if method = "OPTIONS" then { pathItem with Options := some operation }
  else if method = "PATCH" then { pathItem with Patch := some operation }
  else if method = "POST" then { pathItem with Post := some operation }
  else if method = "PUT" then { pathItem with Put := some operation }
  else if method = "TRACE" then { pathItem with Trace := some operation }
  else pathItem

/-- The method `AddOperation` of `openapi3.T`: the path item of the path is
looked up, made when there is none, and gets the operation for the method. -/
def T.AddOperation (doc : T) (path method : String) (operation : Operation) : T :=
  let pathItem := match mapGet doc.Paths path with
    | some pathItem => pathItem
    | none => {}
  { doc with Paths := mapSet doc.Paths path (pathItem.SetOperation method operation) }

/-- The constant `http.MethodPost`. -/
abbrev MethodPost : String := "POST"

/-! ## Assembly of the document (`openapi.go`) -/

/-- The Go function `createOperation`; it reads neither the document nor the
generator and returns no error. -/
def createOperation (_sg : SchemaGenerator) (service : Service) (method : Method) :
    Except GenError (String × Operation) :=
  let op : Operation := {}
  let op := { op with Summary := method.Name }
  let op := { op with Description := method.Description }
  let methodPath := "/twirp/" ++ service.FullName ++ "/" ++ method.Name
  let response : Response := {}
  let response := { response with Description := some "Method response" }
  let request : RequestBody := {}
  let op := { op with
    RequestBody := some { Value := some (request.WithJSONSchemaRef (schemaRef method.RequestType)) } }
  let op := op.AddResponse200 (response.WithJSONSchemaRef (schemaRef method.ResponseType))
  .ok (methodPath, op)

/-- The loop of `ToOpenAPI` over the methods of a service. -/
def ToOpenAPI.methods (sg : SchemaGenerator) (requireBearer : SecurityRequirement)
    (service : Service) (methods : List Method) (doc : T) : Except GenError T :=
  match methods with
  | [] => .ok doc
  | method :: rest =>
    match createOperation sg service method with
    | .error err => .error (.failedToCreateOperation method.Name err)
    | .ok (path, op) =>
      let op := { op with Tags := op.Tags ++ [service.Name] }
      let op := { op with Security := some [requireBearer] }
      let doc := doc.AddOperation path MethodPost op
      ToOpenAPI.methods sg requireBearer service rest doc

/-- The loop of `ToOpenAPI` over the services of a file. -/
def ToOpenAPI.services (sg : SchemaGenerator) (requireBearer : SecurityRequirement)
    (services : List Service) (doc : T) : Except GenError T :=
  match services with
  | [] => .ok doc
  | service :: rest =>
    let doc := { doc with
      Tags := doc.Tags ++ [{ Name := service.Name, Description := service.Description }] }
    match ToOpenAPI.methods sg requireBearer service service.Methods doc with
    | .error err => .error err
    | .ok doc => ToOpenAPI.services sg requireBearer rest doc

/-- The assignment `doc.Components.Schemas[id] = schema`. -/
def T.setSchema (doc : T) (id : String) (schema : SchemaRef) : T :=
  { doc with
    Components := { doc.Components with Schemas := mapSet doc.Components.Schemas id schema } }

/-- The loop of `ToOpenAPI` over the messages of a file. -/
def ToOpenAPI.messages (sg : SchemaGenerator) (messages : List Message) (doc : T) :
    Except GenError T :=
  match messages with
  | [] => .ok doc
  | message :: rest =>
    match mapGet sg.CustomFields message.FullName with
    | some _ => ToOpenAPI.messages sg rest doc
    | none =>
      match MessageSchema sg message.FullName with
      | .error err => .error (.failedToGenerateSchema message.FullName err)
      | .ok schema =>
        let doc := doc.setSchema (schemaID message.FullName) schema
        ToOpenAPI.messages sg rest doc

/-- The loop of `ToOpenAPI` over the enums of a file. -/
def ToOpenAPI.enums (sg : SchemaGenerator) (enums : List Enum) (doc : T) :
    Except GenError T :=
  match enums with
  | [] => .ok doc
  | enum :: rest =>
    match EnumSchema sg enum with
    | .error err => .error (.failedToGenerateSchema enum.FullName err)
    | .ok schema =>
      let doc := doc.setSchema (schemaID enum.FullName) schema
      ToOpenAPI.enums sg rest doc

/-- The loop of `ToOpenAPI` over the files of the document. -/
def ToOpenAPI.files (sg : SchemaGenerator) (requireBearer : SecurityRequirement)
    (files : List File) (doc : T) : Except GenError T :=
  match files with
  | [] => .ok doc
  | file :: rest =>
    match ToOpenAPI.services sg requireBearer file.Services doc with
    | .error err => .error err
    | .ok doc =>
      match ToOpenAPI.messages sg file.Messages doc with
      | .error err => .error err
      | .ok doc =>
        match ToOpenAPI.enums sg file.Enums doc with
        | .error err => .error err
        | .ok doc => ToOpenAPI.files sg requireBearer rest doc

/-- The Go function `ToOpenAPI`, without the plugin argument that it does not
read; on an error Go also returns the document built so far, which is left out. -/
def ToOpenAPI (application version : String) (d : Doc) (schemaGen : SchemaGenerator) :
    Except GenError T :=
  let doc : T := {}
  let doc := { doc with OpenAPI := "3.0.0" }
  let doc := { doc with Info := some { Title := application ++ " API", Version := version } }
  let doc := { doc with Components := {} }
  let doc := { doc with Components := { doc.Components with Schemas := [] } }
  let doc := { doc with Components := { doc.Components with SecuritySchemes := [] } }
  let bearer := NewJWTSecurityScheme
  let doc := { doc with
    Components := { doc.Components with
      SecuritySchemes := mapSet doc.Components.SecuritySchemes "bearer" { Value := some bearer } } }
  let requireBearer : SecurityRequirement := []
  let requireBearer := Authenticate requireBearer "bearer"
  ToOpenAPI.files schemaGen requireBearer d.Files doc

/-- The messages of all files, in file order and then declaration order. -/
def allMessages (files : List File) : List Message :=
  match files with
  | [] => []
  | f :: rest => f.Messages ++ allMessages rest

/-! ## Descriptor reader (`dump.go`) -/

/-- The predicate `unicode.IsSpace`, which `strings.TrimSpace` uses: the
characters with the Unicode property White_Space. -/
def isSpace (c : Char) : Bool :=
  c = '\t' || c = '\n' || c.val = 0x0B || c.val = 0x0C || c = '\r' || c = ' '
    || c.val = 0x85 || c.val = 0xA0 || c.val = 0x1680
    || (0x2000 ≤ c.val && c.val ≤ 0x200A)
    || c.val = 0x2028 || c.val = 0x2029 || c.val = 0x202F || c.val = 0x205F
    || c.val = 0x3000

/-- The function `strings.TrimSpace`: leading and trailing white space removed. -/
def TrimSpace (s : String) : String :=
  ⟨(s.data.dropWhile isSpace).rdropWhile isSpace⟩

/-- The function `strings.HasPrefix`. -/
def HasPrefix (s pre : String) : Bool :=
  pre.data.isPrefixOf s.data

/-- The function `strings.TrimPrefix`: the string without the prefix when it
has it, the string itself otherwise. -/
def TrimPrefix (s pre : String) : String :=
  if HasPrefix s pre then ⟨s.data.drop pre.data.length⟩ else s

/-- The call `singleNewline.ReplaceAllLiteralString(str, " ")` for the Go
variable `singleNewline`, the regular expression of a newline followed by one
or more spaces: every match, found from left to right and as long as
possible, is replaced by one space. The flag tells that the characters come
right after a newline of a match, where further spaces belong to the match. -/
def singleNewlineReplace (inMatch : Bool) : List Char → List Char
  | [] => []
  | c :: rest =>
    if inMatch = true ∧ c = ' ' then singleNewlineReplace true rest
    else if c = '\n' ∧ rest.head? = some ' ' then ' ' :: singleNewlineReplace true rest
    else c :: singleNewlineReplace false rest

/-- The Go function `whitewash`. -/
def whitewash (str : String) : String :=
  let str := TrimSpace str
  let str : String := ⟨singleNewlineReplace false str.data⟩
  str

/-- The kinds of `protoreflect.Kind` that `resolveTypes` tells apart, the
others with the name that the method `String` returns. -/
inductive Kind where
  | MessageKind
  | EnumKind
  | other (name : String)
  deriving DecidableEq, Repr

/-- The part of a `protoreflect.FieldDescriptor` that `resolveTypes` reads:
the kind, the name and full name of the message, the full name of the enum. -/
structure FieldDescriptor where
  Kind : Kind := .other ""
  MessageName : String := ""
  MessageFullName : String := ""
  EnumFullName : String := ""
  deriving DecidableEq, Repr

/-- The part of a `protogen.Field` that `readMessage` reads: the name, the
descriptor, whether the cardinality is repeated, whether the field is a map,
the descriptors of the map key and the map value, and the comments. -/
structure ProtoField where
  Name : String := ""
  Desc : FieldDescriptor := {}
  Repeated : Bool := false
  IsMap : Bool := false
  MapKey : FieldDescriptor := {}
  MapValue : FieldDescriptor := {}
  Leading : String := ""
  Trailing : String := ""
  deriving DecidableEq, Repr

/-- The part of a `protogen.Message` that `readMessage` reads. -/
structure ProtoMessage where
  Name : String := ""
  FullName : String := ""
  Leading : String := ""
  Fields : List ProtoField := []
  deriving DecidableEq, Repr

/-- The Go function `resolveTypes`. -/
def resolveTypes (f : FieldDescriptor) : String × String :=
  match f.Kind with
  | .MessageKind => (f.MessageName, f.MessageFullName)
  | .EnumKind => ("enum", f.EnumFullName)
  | .other name => (name, name)

/-- The body of the loop of `readMessage` over the fields: the field that it
appends for a field of the message. -/
def readMessage.field (f : ProtoField) : MessageField :=
  let (t, ft) := resolveTypes f.Desc
  let trailing := whitewash f.Trailing
  let isRequired := HasPrefix trailing "required"
  let trailing := if isRequired then TrimPrefix trailing "required" else trailing
  let desc := whitewash (f.Leading ++ " " ++ trailing)
  let field : MessageField :=
    { Name := f.Name, Description := desc, Type_ := t, FullType := ft,
      IsRepeated := f.Repeated, IsMap := f.IsMap, IsRequired := isRequired }
  if field.IsMap then
    let field := { field with Type_ := "map" }
    let kt := (resolveTypes f.MapKey).2
    let vt := (resolveTypes f.MapValue).2
    let field := { field with MapKey := kt }
    let field := { field with MapValue := vt }
    let field := { field with IsRepeated := false }
    field
  else
    field

/-- The Go function `readMessage`. -/
def readMessage (m : ProtoMessage) : Message :=
  { Name := m.Name, FullName := m.FullName, Description := whitewash m.Leading,
    Fields := m.Fields.map readMessage.field }

/-- The characters have no white space at either end. -/
def NoOuterSpace (l : List Char) : Prop :=
  (∀ c, l.head? = some c → isSpace c = false) ∧ (∀ c, l.getLast? = some c → isSpace c = false)

/-- No newline of the characters is immediately followed by a space. -/
def NoNewlineSpace (l : List Char) : Prop :=
  l.Chain' (fun a b => ¬ (a = '\n' ∧ b = ' '))

/-- No newline of the characters is immediately followed by a newline. -/
def NoDoubleNewline (l : List Char) : Prop :=
  l.Chain' (fun a b => ¬ (a = '\n' ∧ b = '\n'))

/-- The enums of all files, in file order and then declaration order. -/
def allEnums (files : List File) : List Enum :=
  match files with
  | [] => []
  | f :: rest => f.Enums ++ allEnums rest

/-- The security requirement that `ToOpenAPI` builds: the scheme `bearer`
without scopes. -/
def requireBearer : SecurityRequirement :=
  Authenticate [] "bearer"

/-- The path that `createOperation` makes for a method of a service. -/
def methodPath (service : Service) (method : Method) : String :=
  "/twirp/" ++ service.FullName ++ "/" ++ method.Name

/-- The operation that `ToOpenAPI` adds for a method of a service: the one of
`createOperation` with the tag and the security requirement. -/
def methodOperation (service : Service) (method : Method) : Operation :=
  { Tags := [service.Name]
    Summary := method.Name
    Description := method.Description
    RequestBody := some
      { Value := some { Content := NewContentWithJSONSchemaRef (schemaRef method.RequestType) } }
    Responses := some (mapSet NewResponses "200"
      { Value := some
          { Description := some "Method response"
            Content := NewContentWithJSONSchemaRef (schemaRef method.ResponseType) } })
    Security := some [requireBearer] }

/-- The paths and operations of the methods of a list of services, in order. -/
def servicesOperations (services : List Service) : List (String × Operation) :=
  match services with
  | [] => []
  | service :: rest =>
    service.Methods.map (fun method => (methodPath service method, methodOperation service method))
      ++ servicesOperations rest

/-- The paths and operations of the methods of all files, in file order, then
service order, then method order. -/
def filesOperations (files : List File) : List (String × Operation) :=
  match files with
  | [] => []
  | f :: rest => servicesOperations f.Services ++ filesOperations rest

/-- The path map after `AddOperation` with the method POST for each pair of a
list, in order. -/
def addOperations (paths : List (String × PathItem)) (ops : List (String × Operation)) :
    List (String × PathItem) :=
  match ops with
  | [] => paths
  | (path, op) :: rest =>
    addOperations (({ Paths := paths } : T).AddOperation path MethodPost op).Paths rest

/-- The error that the message loops of `ToOpenAPI` return on a list of
messages: the wrapped error of the first message without custom field function
on which `MessageSchema` fails, if there is one. -/
def firstFailure (sg : SchemaGenerator) (messages : List Message) : Option GenError :=
  match messages with
  | [] => none
  | message :: rest =>
    match mapGet sg.CustomFields message.FullName with
    | some _ => firstFailure sg rest
    | none =>
      match MessageSchema sg message.FullName with
      | .error err => some (.failedToGenerateSchema message.FullName err)
      | .ok _ => firstFailure sg rest

/-- The reference string `x` occurs in the schema reference: it is the
non-empty Ref of the reference itself or it occurs in the Items, in a
property or in the AdditionalProperties schema of its value. -/
inductive SchemaRef.Refers : SchemaRef → String → Prop where
  | here (r : SchemaRef) : r.Ref ≠ "" → SchemaRef.Refers r r.Ref
  | items (r : SchemaRef) (schema : Schema) (item : SchemaRef) (x : String) :
      r.Value = some schema → schema.Items = some item → SchemaRef.Refers item x →
      SchemaRef.Refers r x
  | property (r : SchemaRef) (schema : Schema) (k : String) (p : SchemaRef) (x : String) :
      r.Value = some schema → (k, p) ∈ schema.Properties → SchemaRef.Refers p x →
      SchemaRef.Refers r x
  | additional (r : SchemaRef) (schema : Schema) (a : SchemaRef) (x : String) :
      r.Value = some schema → schema.AdditionalProperties.Schema = some a →
      SchemaRef.Refers a x → SchemaRef.Refers r x

/-- The reference string `x` is resolved by the generator: it is
"#/components/schemas/" followed by a name without custom field function that
`findEnum` or `findMessage` finds in the document of the generator. -/
def Resolved (sg : SchemaGenerator) (x : String) : Prop :=
  ∃ name, x = "#/components/schemas/" ++ name ∧ mapGet sg.CustomFields name = none ∧
    ((findEnum sg.doc.Files name).2 = true ∨ (findMessage sg.doc.Files name).Name ≠ "")

/-! ## Example inputs -/

/-- A repeated string field. -/
def tagsField : MessageField :=
  { Name := "tags", Description := "the tags", Type_ := "string", FullType := "string",
    IsRepeated := true }

/-- A repeated field of the well-known timestamp type. -/
def timesField : MessageField :=
  { Name := "times", Description := "the times", Type_ := "Timestamp",
    FullType := "google.protobuf.Timestamp", IsRepeated := true }

/-- A map field from string to int64. -/
def countsField : MessageField :=
  { Name := "counts", Description := "the counts", Type_ := "map",
    FullType := "example.Stats.CountsEntry", IsMap := true,
    MapKey := "string", MapValue := "int64" }

/-- A map field whose key is a message and whose type has a custom field function. -/
def stampedField : MessageField :=
  { Name := "stamped", Type_ := "map", FullType := "google.protobuf.Timestamp",
    IsMap := true, MapKey := "example.Key", MapValue := "string" }

/-- A map field whose key is a message. -/
def badKeyField : MessageField :=
  { Name := "index", Type_ := "map", FullType := "example.Stats.IndexEntry",
    IsMap := true, MapKey := "example.Key", MapValue := "string" }

/-- The message `Article` with the single required string field `title`. -/
def article : Message :=
  { Name := "Article", FullName := "Article", Description := "An article.",
    Fields := [{ Name := "title", Description := "the title", Type_ := "string",
                 FullType := "string", IsRequired := true }] }

/-- The document of the end-to-end scenario: the message `Article` and the
service `Docs` with the method `Get` from `Article` to `Article`. -/
def articleDoc : Doc :=
  { Files := [{ Name := "docs.proto"
                Services := [{ Name := "Docs", FullName := "Docs"
                               Methods := [{ Name := "Get", RequestType := "Article",
                                             ResponseType := "Article" }] }]
                Messages := [article] }] }

/-- A message without fields, declared first under the name `example.Note`. -/
def firstNote : Message :=
  { Name := "Note", FullName := "example.Note", Description := "The first note." }

/-- A message with one required field, declared second under the same
FullName `example.Note`. -/
def secondNote : Message :=
  { Name := "Note", FullName := "example.Note", Description := "The second note.",
    Fields := [{ Name := "body", Type_ := "string", FullType := "string",
                 IsRequired := true }] }

/-- A document that declares two messages under one FullName. -/
def twoNotesDoc : Doc :=
  { Files := [{ Name := "notes.proto", Messages := [firstNote, secondNote] }] }

/-- The schema of the field `title` of `Article`, as the generator makes it. -/
def titleSchema : Schema :=
  { Type_ := some ["string"], Description := "the title" }

/-- The schema of the message `Article`, as the generator makes it. -/
def articleSchema : Schema :=
  { Type_ := some ["string"], Description := "An article.", Required := ["title"],
    Properties := [("title", SchemaOf.NewRef titleSchema)] }

/-- The JSON content that refers to the schema of `Article`. -/
def articleContent : Content :=
  [("application/json", { Schema := some (SchemaRef.mk "#/components/schemas/Article" none) })]

/-- The operation of the method `Get` of the service `Docs`. -/
def articleOperation : Operation :=
  { Tags := ["Docs"]
    Summary := "Get"
    Description := ""
    RequestBody := some { Value := some { Content := articleContent } }
    Responses := some
      [("default", { Value := some { Description := some "" } }),
       ("200", { Value := some { Description := some "Method response"
                                 Content := articleContent } })]
    Security := some [[("bearer", [])]] }

/-- The output document for the document of the end-to-end scenario. -/
def articleAPI (application version : String) : T :=
  { OpenAPI := "3.0.0"
    Info := some { Title := application ++ " API", Version := version }
    Components :=
      { Schemas := [("Article", SchemaOf.NewRef articleSchema)]
        SecuritySchemes := [("bearer", { Value := some NewJWTSecurityScheme })] }
    Tags := [{ Name := "Docs", Description := "" }]
    Paths := [("/twirp/Docs/Get", { Post := some articleOperation })] }

/-- A document whose only method takes and returns the type `Missing`, which
the document does not declare. -/
def missingDoc : Doc :=
  { Files := [{ Name := "docs.proto"
                Services := [{ Name := "Docs", FullName := "Docs"
                               Methods := [{ Name := "Get", RequestType := "Missing",
                                             ResponseType := "Missing" }] }] }] }

/-- A custom field function for the enum `example.Color`. -/
def colorField (f : MessageField) : Except GenError SchemaRef :=
  .ok (SchemaOf.NewRef { Type_ := some ["string"], Description := f.Description })

/-- A document that declares the enum `example.Color`. -/
def colorDoc : Doc :=
  { Files := [{ Name := "color.proto"
                Enums := [{ Name := "Color", FullName := "example.Color"
                            Values := [{ Name := "RED", Number := "0" }] }] }] }

/-- The default generator for `colorDoc`, extended by the host with a custom
field function for `example.Color`. -/
def colorGenerator : SchemaGenerator :=
  { doc := colorDoc
    CustomFields := [("google.protobuf.Timestamp", GoogleTimestamp),
                     ("example.Color", colorField)] }

/-- A message whose field `author` has a type that the document does not declare. -/
def post : Message :=
  { Name := "Post", FullName := "example.Post"
    Fields := [{ Name := "author", Type_ := "Author", FullType := "example.Author" }] }

/-- A document with the message `Article` followed by the message `Post`. -/
def postDoc : Doc :=
  { Files := [{ Name := "post.proto", Messages := [article, post] }] }

/-- A message whose field `items` is a list of articles. -/
def feed : Message :=
  { Name := "Feed", FullName := "Feed"
    Fields := [{ Name := "items", Type_ := "Article", FullType := "Article",
                 IsRepeated := true }] }

/-- A document with the messages `Article` and `Feed`. -/
def feedDoc : Doc :=
  { Files := [{ Name := "feed.proto", Messages := [article, feed] }] }

/-- The schema of the message `Feed`, as the generator makes it. -/
def feedSchema : Schema :=
  { Type_ := some ["string"]
    Properties := [("items", SchemaOf.NewRef
      { Type_ := some ["array"]
        Items := some (SchemaRef.mk "#/components/schemas/Article" none) })] }

/-- The output document for `feedDoc`. -/
def feedAPI : T :=
  { OpenAPI := "3.0.0"
    Info := some { Title := "docs API", Version := "0.0.0" }
    Components :=
      { Schemas := [("Article", SchemaOf.NewRef articleSchema),
                    ("Feed", SchemaOf.NewRef feedSchema)]
        SecuritySchemes := [("bearer", { Value := some NewJWTSecurityScheme })] } }

/-- A field of kind int64 with the trailing comment
`required, must be positive` and no leading comment. -/
def amountField : ProtoField :=
  { Name := "amount", Desc := { Kind := .other "int64" },
    Trailing := "required, must be positive" }

/-- A message with an empty Name. -/
def ghost : Message :=
  { Name := "", FullName := "example.Ghost", Description := "A message without a name." }

/-- A document whose only message has an empty Name. -/
def ghostDoc : Doc :=
  { Files := [{ Name := "ghost.proto", Messages := [ghost] }] }

/-- A field of the message type `example.Ghost`. -/
def ghostField : MessageField :=
  { Name := "ghost", Type_ := "Ghost", FullType := "example.Ghost" }

/-- A field of the message type `Article`. -/
def articleField : MessageField :=
  { Name := "article", Type_ := "Article", FullType := "Article" }

/-- A plain field of type int64. -/
def sizeField : MessageField :=
  { Name := "size", Description := "the size", Type_ := "int64", FullType := "int64" }

/-! ## Go maps as association lists -/

theorem mapGet_eq_none_iff {V : Type} (m : List (String × V)) (k : String) :
    mapGet m k = none ↔ k ∉ mapKeys m := by
  induction m with
  | nil => simp [mapGet, mapKeys]
  | cons p rest ih =>
    obtain ⟨k', v⟩ := p
    by_cases h : k' = k
    · simp [mapGet, mapKeys, h]
    · have h' : ¬ k = k' := fun e => h e.symm
      simpa [mapGet, mapKeys, h, h'] using ih

theorem mapGet_isSome_of_mem {V : Type} (m : List (String × V)) (k : String)
    (h : k ∈ mapKeys m) : ∃ v, mapGet m k = some v := by
  cases hg : mapGet m k with
  | none => exact absurd h ((mapGet_eq_none_iff m k).1 hg)
  | some v => exact ⟨v, rfl⟩

theorem mapGet_mapSet_self {V : Type} (m : List (String × V)) (k : String) (v : V) :
    mapGet (mapSet m k v) k = some v := by
  induction m with
  | nil => simp [mapSet, mapGet]
  | cons p rest ih =>
    obtain ⟨k', v'⟩ := p
    by_cases h : k' = k
    · simp [mapSet, mapGet, h]
    · simp [mapSet, mapGet, h, ih]

theorem mapGet_mapSet_of_ne {V : Type} (m : List (String × V)) (k k' : String) (v : V)
    (hne : k ≠ k') : mapGet (mapSet m k v) k' = mapGet m k' := by
  induction m with
  | nil => simp [mapSet, mapGet, hne]
  | cons p rest ih =>
    obtain ⟨k₀, v₀⟩ := p
    by_cases h : k₀ = k
    · subst h
      simp [mapSet, mapGet, hne]
    · by_cases h' : k₀ = k'
      · subst h'
        simp [mapSet, mapGet, h]
      · simp [mapSet, mapGet, h, h', ih]

theorem mapKeys_mapSet_of_not_mem {V : Type} (m : List (String × V)) (k : String) (v : V)
    (hk : k ∉ mapKeys m) : mapKeys (mapSet m k v) = mapKeys m ++ [k] := by
  induction m with
  | nil => simp [mapSet, mapKeys]
  | cons p rest ih =>
    obtain ⟨k', v'⟩ := p
    have hne : ¬ k' = k := by
      intro e
      exact hk (by simp [mapKeys, e])
    have hrest : k ∉ mapKeys rest := by
      intro hmem
      exact hk (by simp only [mapKeys, List.map_cons, List.mem_cons]; exact Or.inr hmem)
    have := ih hrest
    simp only [mapKeys] at this
    simp [mapSet, mapKeys, hne, this]

/-! ## Lookup of messages and enums -/

theorem findMessage_eq_all (files : List File) (name : String) :
    findMessage files name = (findMessageIn (allMessages files) name).getD {} := by
  have happ : ∀ (xs ys : List Message), findMessageIn (xs ++ ys) name =
      (findMessageIn xs name).orElse (fun _ => findMessageIn ys name) := by
    intro xs ys
    induction xs with
    | nil => simp [findMessageIn]
    | cons m rest ih =>
      by_cases h : m.FullName = name
      · simp [findMessageIn, h]
      · simp [findMessageIn, h, ih]
  induction files with
  | nil => simp [findMessage, allMessages, findMessageIn]
  | cons f rest ih =>
    rw [findMessage, allMessages, happ]
    cases hf : findMessageIn f.Messages name with
    | none => simp [ih]
    | some m => simp

theorem findMessageIn_eq_none (messages : List Message) (name : String)
    (h : ∀ m ∈ messages, m.FullName ≠ name) : findMessageIn messages name = none := by
  induction messages with
  | nil => simp [findMessageIn]
  | cons m rest ih =>
    have hm : ¬ m.FullName = name := h m (by simp)
    simp only [findMessageIn, hm, if_false]
    exact ih (fun m' hm' => h m' (by simp [hm']))

theorem mem_allMessages (files : List File) (m : Message) :
    m ∈ allMessages files ↔ ∃ file ∈ files, m ∈ file.Messages := by
  induction files with
  | nil => simp [allMessages]
  | cons f rest ih => simp [allMessages, ih]

/-- A name that no message of the document bears is looked up to the zero message. -/
theorem findMessage_absent (files : List File) (name : String)
    (h : ∀ file ∈ files, ∀ m ∈ file.Messages, m.FullName ≠ name) :
    findMessage files name = {} := by
  rw [findMessage_eq_all, findMessageIn_eq_none]
  · rfl
  · intro m hm
    obtain ⟨file, hfile, hmem⟩ := (mem_allMessages files m).1 hm
    exact h file hfile m hmem

/-- When the FullNames of the messages are pairwise distinct, every message of
the document is the one that `findMessage` returns for its FullName. -/
theorem findMessage_of_distinct (files : List File) (M : Message)
    (hd : (allMessages files).Pairwise (fun a b => a.FullName ≠ b.FullName))
    (hM : M ∈ allMessages files) : findMessage files M.FullName = M := by
  rw [findMessage_eq_all]
  generalize allMessages files = ms at hd hM
  induction ms with
  | nil => simp at hM
  | cons m rest ih =>
    rw [List.pairwise_cons] at hd
    by_cases h : m.FullName = M.FullName
    · have : m = M := by
        rcases List.mem_cons.1 hM with e | hmem
        · exact e.symm
        · exact absurd h (hd.1 M hmem)
      simp [findMessageIn, this]
    · have hmem : M ∈ rest := by
        rcases List.mem_cons.1 hM with e | hmem
        · exact absurd (by rw [e]) h
        · exact hmem
      simp only [findMessageIn, h, if_false]
      exact ih hd.2 hmem

theorem findEnumIn_isSome_iff (enums : List Enum) (name : String) :
    (∃ e, findEnumIn enums name = some e) ↔ ∃ e ∈ enums, e.FullName = name := by
  induction enums with
  | nil => simp [findEnumIn]
  | cons e rest ih =>
    by_cases h : e.FullName = name
    · simp [findEnumIn, h]
    · simp [findEnumIn, h, ih]

/-- The flag of `findEnum` is set exactly when an enum of the document bears
the name. -/
theorem findEnum_snd_iff (files : List File) (name : String) :
    (findEnum files name).2 = true ↔ ∃ file ∈ files, ∃ e ∈ file.Enums, e.FullName = name := by
  induction files with
  | nil => simp [findEnum]
  | cons f rest ih =>
    rw [findEnum]
    cases hf : findEnumIn f.Enums name with
    | none =>
      have hno : ¬ ∃ e ∈ f.Enums, e.FullName = name := by
        intro hex
        obtain ⟨e, he⟩ := (findEnumIn_isSome_iff f.Enums name).2 hex
        rw [hf] at he
        cases he
      simp only [ih, List.mem_cons, exists_eq_or_imp]
      constructor
      · exact fun h => Or.inr h
      · rintro (h | h)
        · exact absurd h hno
        · exact h
    | some e =>
      have hyes : ∃ e ∈ f.Enums, e.FullName = name :=
        (findEnumIn_isSome_iff f.Enums name).1 ⟨e, hf⟩
      simp only [List.mem_cons, exists_eq_or_imp, true_iff]
      exact Or.inl hyes

/-! ## The cases of `fieldSchema` -/

theorem fieldSchema_custom (sg : SchemaGenerator) (f : MessageField) (custom : CustomFieldFunc)
    (hc : mapGet sg.CustomFields f.FullType = some custom) :
    fieldSchema sg f = custom f := by
  rw [fieldSchema]
  simp [hc]

theorem fieldSchema_repeated (sg : SchemaGenerator) (f : MessageField)
    (hc : mapGet sg.CustomFields f.FullType = none) (hr : f.IsRepeated = true) :
    fieldSchema sg f =
      match fieldSchema sg { f with Description := "", IsRepeated := false } with
      | .error err => .error (.arrayItemSchema err)
      | .ok itemSchema =>
        .ok (SchemaOf.NewRef
          { Description := f.Description, Type_ := some [TypeArray], Items := some itemSchema }) := by
  rw [fieldSchema]
  simp only [hc, hr, dite_true]
  rfl

theorem fieldSchema_map (sg : SchemaGenerator) (f : MessageField)
    (hc : mapGet sg.CustomFields f.FullType = none) (hr : f.IsRepeated = false)
    (hm : f.IsMap = true) :
    fieldSchema sg f =
      match mapGet scalarTypeMap f.MapKey with
      | none => .error (.mapKeyMustBeScalar f.MapKey)
      | some _ =>
        match fieldSchema sg
            { f with Description := "", IsMap := false, FullType := f.MapValue } with
        | .error err => .error (.arrayItemSchema err)
        | .ok itemSchema =>
          .ok (SchemaOf.NewRef
            { Description := f.Description, Type_ := some [TypeObject],
              AdditionalProperties := { Schema := some itemSchema } }) := by
  rw [fieldSchema]
  simp only [hc, hr, hm, dite_true, Bool.false_eq_true, dite_false]
  rfl

theorem fieldSchema_plain (sg : SchemaGenerator) (f : MessageField)
    (hc : mapGet sg.CustomFields f.FullType = none) (hr : f.IsRepeated = false)
    (hm : f.IsMap = false) :
    fieldSchema sg f =
      match mapGet scalarTypeMap f.FullType with
      | some scalar =>
        .ok (SchemaOf.NewRef { Description := f.Description, Type_ := some [scalar] })
      | none =>
        if (findEnum sg.doc.Files f.FullType).2 = true then
          .ok (schemaRef f.FullType)
        else if (findMessage sg.doc.Files f.FullType).Name ≠ "" then
          .ok (schemaRef f.FullType)
        else
          .error (.unhandledFieldType f.FullType) := by
  rw [fieldSchema]
  simp only [hc, hr, hm, Bool.false_eq_true, dite_false]
  rfl

/-! ## Repeated fields -/

/-- C1: for a repeated field whose FullType has no custom field function, if
`fieldSchema` succeeds with `s` on the item field (IsRepeated cleared,
Description empty) then `fieldSchema` succeeds on the field with the array
schema whose Items is `s` and whose Description is the field's; if it fails on
the item field it fails on the field. -/
theorem fieldSchema_repeated_array (sg : SchemaGenerator) (f : MessageField)
    (hc : mapGet sg.CustomFields f.FullType = none) (hr : f.IsRepeated = true) :
    (∀ s, fieldSchema sg { f with IsRepeated := false, Description := "" } = .ok s →
      fieldSchema sg f = .ok (SchemaOf.NewRef
        { Type_ := some [TypeArray], Items := some s, Description := f.Description })) ∧
    (∀ e, fieldSchema sg { f with IsRepeated := false, Description := "" } = .error e →
      ∃ e', fieldSchema sg f = .error e') := by
  constructor
  · intro s hs
    rw [fieldSchema_repeated sg f hc hr, hs]
  · intro e he
    refine ⟨.arrayItemSchema e, ?_⟩
    rw [fieldSchema_repeated sg f hc hr, he]

/-- The repeated string field `tags` yields an array of strings that carries
the description. -/
theorem fieldSchema_repeated_array_witness :
    mapGet (NewSchemaGenerator {}).CustomFields tagsField.FullType = none ∧
    tagsField.IsRepeated = true ∧
    fieldSchema (NewSchemaGenerator {}) tagsField = .ok (SchemaOf.NewRef
      { Type_ := some ["array"], Description := "the tags",
        Items := some (SchemaOf.NewRef { Type_ := some ["string"] }) }) :=
  ⟨by simp [NewSchemaGenerator, mapGet, tagsField], rfl,
    (fieldSchema_repeated_array (NewSchemaGenerator {}) tagsField
      (by simp [NewSchemaGenerator, mapGet, tagsField]) rfl).1 _
      (by simp [fieldSchema, NewSchemaGenerator, mapGet, tagsField, scalarTypeMap, NewSchema])⟩

/-! ## The timestamp override -/

/-- With the default generator the repeated timestamp field `times` does not
yield an array of date-time strings: the result is not array-typed. -/
theorem repeated_timestamp_not_array :
    timesField.FullType = "google.protobuf.Timestamp" ∧ timesField.IsRepeated = true ∧
    ¬ ∃ schema item : Schema,
        fieldSchema (NewSchemaGenerator {}) timesField = .ok (SchemaOf.NewRef schema) ∧
        schema.Type_ = some [TypeArray] ∧ schema.Items = some (SchemaOf.NewRef item) ∧
        item.Type_ = some [TypeString] ∧ item.Format = "date-time" := by
  refine ⟨rfl, rfl, ?_⟩
  rintro ⟨schema, item, h, hty, -⟩
  rw [fieldSchema_custom _ _ GoogleTimestamp
    (by simp [NewSchemaGenerator, mapGet, timesField])] at h
  simp only [GoogleTimestamp, NewSchema, SchemaOf.NewRef, Except.ok.injEq, SchemaRef.mk.injEq,
    Option.some.injEq, true_and] at h
  rw [← h] at hty
  simp [TypeString, TypeArray] at hty

/-- C2 (amended): with the default generator, a field whose FullType is the
timestamp type yields the string schema of format date-time with the field's
Description, whatever its IsRepeated and IsMap flags: the custom field function
runs before the cardinality cases and nothing wraps its result. -/
theorem fieldSchema_timestamp (doc : Doc) (f : MessageField)
    (ht : f.FullType = "google.protobuf.Timestamp") :
    fieldSchema (NewSchemaGenerator doc) f = .ok (SchemaOf.NewRef
      { Type_ := some [TypeString], Format := "date-time", Description := f.Description }) := by
  rw [fieldSchema_custom _ _ GoogleTimestamp (by simp [NewSchemaGenerator, mapGet, ht])]
  rfl

/-- The repeated timestamp field `times` yields a plain date-time string schema. -/
theorem fieldSchema_timestamp_witness :
    timesField.FullType = "google.protobuf.Timestamp" ∧ timesField.IsRepeated = true ∧
    fieldSchema (NewSchemaGenerator {}) timesField = .ok (SchemaOf.NewRef
      { Type_ := some ["string"], Format := "date-time", Description := "the times" }) :=
  ⟨rfl, rfl, fieldSchema_timestamp {} timesField rfl⟩

/-! ## Map fields -/

/-- C3: for a non-repeated map field whose FullType has no custom field
function and whose MapKey is in the scalar table, if `fieldSchema` succeeds
with `s` on the synthetic field (IsMap cleared, Description empty, FullType
replaced by MapValue) then it succeeds on the field with the object schema
whose AdditionalProperties schema is `s` and whose Description is the field's. -/
theorem fieldSchema_map_object (sg : SchemaGenerator) (f : MessageField)
    (hc : mapGet sg.CustomFields f.FullType = none) (hr : f.IsRepeated = false)
    (hm : f.IsMap = true) (hk : f.MapKey ∈ mapKeys scalarTypeMap) (s : SchemaRef)
    (hs : fieldSchema sg { f with IsMap := false, Description := "", FullType := f.MapValue }
      = .ok s) :
    fieldSchema sg f = .ok (SchemaOf.NewRef
      { Type_ := some [TypeObject], AdditionalProperties := { Schema := some s },
        Description := f.Description }) := by
  obtain ⟨t, ht⟩ := mapGet_isSome_of_mem scalarTypeMap f.MapKey hk
  rw [fieldSchema_map sg f hc hr hm, ht]
  simp only
  rw [hs]

/-- The map field `counts` from string to int64 yields an object whose
additional properties are integers. -/
theorem fieldSchema_map_object_witness :
    mapGet (NewSchemaGenerator {}).CustomFields countsField.FullType = none ∧
    countsField.IsRepeated = false ∧ countsField.IsMap = true ∧
    countsField.MapKey ∈ mapKeys scalarTypeMap ∧
    fieldSchema (NewSchemaGenerator {}) countsField = .ok (SchemaOf.NewRef
      { Type_ := some ["object"], Description := "the counts",
        AdditionalProperties :=
          { Schema := some (SchemaOf.NewRef { Type_ := some ["integer"] }) } }) :=
  ⟨by simp [NewSchemaGenerator, mapGet, countsField], rfl, rfl,
    by simp [mapKeys, scalarTypeMap, countsField],
    fieldSchema_map_object (NewSchemaGenerator {}) countsField
      (by simp [NewSchemaGenerator, mapGet, countsField]) rfl rfl
      (by simp [mapKeys, scalarTypeMap, countsField]) _
      (by simp [fieldSchema, NewSchemaGenerator, mapGet, countsField, scalarTypeMap,
        NewSchema])⟩

/-- With the default generator the map field `stamped`, whose key is a message
and whose FullType has a custom field function, yields a schema and no error. -/
theorem map_message_key_custom_succeeds :
    stampedField.IsMap = true ∧ stampedField.MapKey ∉ mapKeys scalarTypeMap ∧
    ∃ s, fieldSchema (NewSchemaGenerator {}) stampedField = .ok s := by
  refine ⟨rfl, by simp [mapKeys, scalarTypeMap, stampedField], ?_⟩
  refine ⟨SchemaOf.NewRef { Type_ := some [TypeString], Format := "date-time" }, ?_⟩
  rw [fieldSchema_custom _ _ GoogleTimestamp
    (by simp [NewSchemaGenerator, mapGet, stampedField])]
  rfl

/-- C4 (amended): a map field whose MapKey is not in the scalar table and whose
FullType has no custom field function makes `fieldSchema` return an error. -/
theorem fieldSchema_map_key_not_scalar (sg : SchemaGenerator) (f : MessageField)
    (hc : mapGet sg.CustomFields f.FullType = none) (hm : f.IsMap = true)
    (hk : f.MapKey ∉ mapKeys scalarTypeMap) :
    ∃ e, fieldSchema sg f = .error e := by
  have hnone : mapGet scalarTypeMap f.MapKey = none := (mapGet_eq_none_iff _ _).2 hk
  have hmap : ∀ g : MessageField, mapGet sg.CustomFields g.FullType = none →
      g.IsRepeated = false → g.IsMap = true → g.MapKey = f.MapKey →
      fieldSchema sg g = .error (.mapKeyMustBeScalar f.MapKey) := by
    intro g hgc hgr hgm hgk
    rw [fieldSchema_map sg g hgc hgr hgm, hgk, hnone]
  cases hr : f.IsRepeated with
  | false => exact ⟨_, hmap f hc hr hm rfl⟩
  | true =>
    refine ⟨.arrayItemSchema (.mapKeyMustBeScalar f.MapKey), ?_⟩
    rw [fieldSchema_repeated sg f hc hr,
      hmap { f with Description := "", IsRepeated := false } hc rfl hm rfl]

/-- The map field `index`, keyed by a message, is rejected. -/
theorem fieldSchema_map_key_not_scalar_witness :
    mapGet (NewSchemaGenerator {}).CustomFields badKeyField.FullType = none ∧
    badKeyField.IsMap = true ∧ badKeyField.MapKey ∉ mapKeys scalarTypeMap ∧
    ∃ e, fieldSchema (NewSchemaGenerator {}) badKeyField = .error e :=
  ⟨by simp [NewSchemaGenerator, mapGet, badKeyField], rfl,
    by simp [mapKeys, scalarTypeMap, badKeyField],
    fieldSchema_map_key_not_scalar (NewSchemaGenerator {}) badKeyField
      (by simp [NewSchemaGenerator, mapGet, badKeyField]) rfl
      (by simp [mapKeys, scalarTypeMap, badKeyField])⟩

/-! ## The field loop of `MessageSchema` -/

/-- One round of the loop on a field for which `fieldSchema` succeeds. -/
theorem MessageSchema.fields_cons (sg : SchemaGenerator) (f : MessageField)
    (rest : List MessageField) (schema : Schema) (fs : SchemaRef)
    (hf : fieldSchema sg f = .ok fs) :
    MessageSchema.fields sg (f :: rest) schema =
      MessageSchema.fields sg rest
        { schema with
          Required := schema.Required ++ (if f.IsRequired = true then [f.Name] else [])
          Properties := mapSet schema.Properties f.Name fs } := by
  rw [MessageSchema.fields, hf]
  cases hreq : f.IsRequired <;> simp

/-- The loop leaves Type and Description alone and appends to Required the
names of the fields with IsRequired, in order. -/
theorem MessageSchema.fields_ok (sg : SchemaGenerator) (fields : List MessageField) :
    ∀ (schema out : Schema), MessageSchema.fields sg fields schema = .ok out →
      out.Type_ = schema.Type_ ∧ out.Description = schema.Description ∧
      out.Required =
        schema.Required ++ (fields.filter (fun f => f.IsRequired)).map (fun f => f.Name) := by
  induction fields with
  | nil =>
    intro schema out h
    simp only [MessageSchema.fields, Except.ok.injEq] at h
    subst h
    simp
  | cons f rest ih =>
    intro schema out h
    cases hf : fieldSchema sg f with
    | error e => simp [MessageSchema.fields, hf] at h
    | ok fs =>
      rw [MessageSchema.fields_cons sg f rest schema fs hf] at h
      obtain ⟨h1, h2, h3⟩ := ih _ _ h
      refine ⟨h1, h2, ?_⟩
      rw [h3]
      cases hreq : f.IsRequired <;> simp [hreq]

/-- When the field names are pairwise distinct and not yet keys of the map,
the loop adds one entry per field, keyed by the field name and holding the
result of `fieldSchema`, and keeps the entries the map had. -/
theorem MessageSchema.fields_properties (sg : SchemaGenerator) (fields : List MessageField) :
    ∀ (schema out : Schema), (fields.map (fun f => f.Name)).Nodup →
      (∀ f ∈ fields, f.Name ∉ mapKeys schema.Properties) →
      MessageSchema.fields sg fields schema = .ok out →
      mapKeys out.Properties = mapKeys schema.Properties ++ fields.map (fun f => f.Name) ∧
      (∀ k ∈ mapKeys schema.Properties,
        mapGet out.Properties k = mapGet schema.Properties k) ∧
      (∀ f ∈ fields, ∃ v, fieldSchema sg f = .ok v ∧ mapGet out.Properties f.Name = some v) := by
  induction fields with
  | nil =>
    intro schema out _ _ h
    simp only [MessageSchema.fields, Except.ok.injEq] at h
    subst h
    simp
  | cons f rest ih =>
    intro schema out hnd hfresh h
    rw [List.map_cons, List.nodup_cons] at hnd
    have hfk : f.Name ∉ mapKeys schema.Properties := hfresh f (by simp)
    cases hf : fieldSchema sg f with
    | error e => simp [MessageSchema.fields, hf] at h
    | ok fs =>
      rw [MessageSchema.fields_cons sg f rest schema fs hf] at h
      have hkeys := mapKeys_mapSet_of_not_mem schema.Properties f.Name fs hfk
      have hfresh' : ∀ g ∈ rest, g.Name ∉ mapKeys (mapSet schema.Properties f.Name fs) := by
        intro g hg hmem
        rw [hkeys, List.mem_append, List.mem_singleton] at hmem
        rcases hmem with hmem | hmem
        · exact hfresh g (by simp [hg]) hmem
        · exact hnd.1 (by rw [← hmem]; exact List.mem_map_of_mem _ hg)
      obtain ⟨h1, h2, h3⟩ := ih _ _ hnd.2 (by simpa using hfresh') h
      simp only at h1 h2
      refine ⟨?_, ?_, ?_⟩
      · rw [h1, hkeys]
        simp
      · intro k hk
        rw [h2 k (by rw [hkeys]; simp [hk])]
        exact mapGet_mapSet_of_ne _ _ _ _ (fun e => hfk (e ▸ hk))
      · intro g hg
        rcases List.mem_cons.1 hg with e | hmem
        · subst e
          refine ⟨fs, hf, ?_⟩
          rw [h2 g.Name (by rw [hkeys]; simp)]
          exact mapGet_mapSet_self _ _ _
        · exact h3 g hmem

/-- The loop fails when `fieldSchema` fails on a field. -/
theorem MessageSchema.fields_error (sg : SchemaGenerator) (fields : List MessageField) :
    ∀ (schema : Schema), (∃ f ∈ fields, ∃ e, fieldSchema sg f = .error e) →
      ∃ e, MessageSchema.fields sg fields schema = .error e := by
  induction fields with
  | nil =>
    intro schema h
    obtain ⟨f, hf, _⟩ := h
    simp at hf
  | cons f rest ih =>
    intro schema h
    cases hf : fieldSchema sg f with
    | error e => exact ⟨_, by rw [MessageSchema.fields, hf]⟩
    | ok fs =>
      rw [MessageSchema.fields_cons sg f rest schema fs hf]
      obtain ⟨g, hg, e, he⟩ := h
      rcases List.mem_cons.1 hg with heq | hmem
      · subst heq
        rw [hf] at he
        cases he
      · exact ih _ ⟨g, hmem, e, he⟩

/-- The loop stops at the first field on which `fieldSchema` fails and reports
that field. -/
theorem MessageSchema.fields_first_error (sg : SchemaGenerator) (pre : List MessageField)
    (f : MessageField) (post : List MessageField) :
    ∀ (schema : Schema), (∀ g ∈ pre, ∃ v, fieldSchema sg g = .ok v) →
      (∃ e, fieldSchema sg f = .error e) →
      MessageSchema.fields sg (pre ++ f :: post) schema =
        .error (.failedToGenerate f.Name f.FullType) := by
  induction pre with
  | nil =>
    intro schema _ hf
    obtain ⟨e, he⟩ := hf
    rw [List.nil_append, MessageSchema.fields, he]
  | cons g rest ih =>
    intro schema hpre hf
    obtain ⟨v, hv⟩ := hpre g (by simp)
    rw [List.cons_append, MessageSchema.fields_cons sg g _ schema v hv]
    exact ih _ (fun g' hg' => hpre g' (by simp [hg'])) hf

/-- A successful `MessageSchema` is the loop run over the fields of the message
that `findMessage` returns, from a string-typed schema with that message's
Description and no properties. -/
theorem MessageSchema_ok (sg : SchemaGenerator) (typeName : String) (s : SchemaRef)
    (h : MessageSchema sg typeName = .ok s) :
    (findMessage sg.doc.Files typeName).Name ≠ "" ∧
    ∃ out, s = SchemaOf.NewRef out ∧
      MessageSchema.fields sg (findMessage sg.doc.Files typeName).Fields
        { Type_ := some [TypeString], Properties := [],
          Description := (findMessage sg.doc.Files typeName).Description } = .ok out := by
  unfold MessageSchema at h
  by_cases hn : (findMessage sg.doc.Files typeName).Name = ""
  · simp [hn] at h
  · refine ⟨hn, ?_⟩
    simp only [hn, if_false] at h
    cases hl : MessageSchema.fields sg (findMessage sg.doc.Files typeName).Fields
        { Type_ := some [TypeString], Properties := [],
          Description := (findMessage sg.doc.Files typeName).Description } with
    | error e =>
      simp only [NewSchema] at h
      rw [hl] at h
      cases h
    | ok out =>
      simp only [NewSchema] at h
      rw [hl] at h
      simp only [Except.ok.injEq] at h
      exact ⟨out, h.symm, rfl⟩

/-! ## `MessageSchema` -/

/-- On the document with two messages named `example.Note`, `MessageSchema`
succeeds with an empty Required list, which is not the list of the required
fields of the second of the two messages. -/
theorem shadowed_message_required :
    (∃ file ∈ twoNotesDoc.Files, secondNote ∈ file.Messages) ∧
    ∃ schema : Schema,
      MessageSchema (NewSchemaGenerator twoNotesDoc) secondNote.FullName
        = .ok (SchemaOf.NewRef schema) ∧
      schema.Required = [] ∧
      schema.Required ≠
        (secondNote.Fields.filter (fun f => f.IsRequired)).map (fun f => f.Name) := by
  refine ⟨⟨_, List.mem_cons_self _ _, by simp [secondNote, firstNote]⟩, ?_⟩
  refine ⟨{ Type_ := some [TypeString], Description := "The first note." }, ?_, rfl, ?_⟩
  · simp [MessageSchema, MessageSchema.fields, NewSchemaGenerator, twoNotesDoc, findMessage,
      findMessageIn, firstNote, secondNote, NewSchema]
  · simp [secondNote]

/-- C5 (amended): for a message M that `findMessage` returns for its own
FullName (no message declared earlier, in file order and then declaration
order, has the same FullName), when `MessageSchema` succeeds on M.FullName the
Required list of the schema is the list of the names of the fields of M with
IsRequired, in declaration order. -/
theorem MessageSchema_required (sg : SchemaGenerator) (M : Message) (s : SchemaRef)
    (hM : findMessage sg.doc.Files M.FullName = M)
    (h : MessageSchema sg M.FullName = .ok s) :
    ∃ schema : Schema, s = SchemaOf.NewRef schema ∧
      schema.Required = (M.Fields.filter (fun f => f.IsRequired)).map (fun f => f.Name) := by
  obtain ⟨-, out, hs, hl⟩ := MessageSchema_ok sg M.FullName s h
  rw [hM] at hl
  obtain ⟨-, -, hreq⟩ := MessageSchema.fields_ok sg M.Fields _ out hl
  exact ⟨out, hs, by simpa using hreq⟩

/-- The schema of `Article` requires exactly `title`. -/
theorem MessageSchema_required_witness :
    findMessage (NewSchemaGenerator articleDoc).doc.Files article.FullName = article ∧
    MessageSchema (NewSchemaGenerator articleDoc) article.FullName =
      .ok (SchemaOf.NewRef
        { Type_ := some ["string"], Description := "An article.", Required := ["title"],
          Properties := [("title", SchemaOf.NewRef
            { Type_ := some ["string"], Description := "the title" })] }) ∧
    ∃ schema : Schema,
      SchemaOf.NewRef
        { Type_ := some ["string"], Description := "An article.", Required := ["title"],
          Properties := [("title", SchemaOf.NewRef
            { Type_ := some ["string"], Description := "the title" })] }
        = SchemaOf.NewRef schema ∧
      schema.Required =
        (article.Fields.filter (fun f => f.IsRequired)).map (fun f => f.Name) :=
  have hM : findMessage (NewSchemaGenerator articleDoc).doc.Files article.FullName
      = article := by
    simp [NewSchemaGenerator, articleDoc, findMessage, findMessageIn]
  have hs : MessageSchema (NewSchemaGenerator articleDoc) article.FullName =
      .ok (SchemaOf.NewRef
        { Type_ := some ["string"], Description := "An article.", Required := ["title"],
          Properties := [("title", SchemaOf.NewRef
            { Type_ := some ["string"], Description := "the title" })] }) := by
    simp [MessageSchema, MessageSchema.fields, fieldSchema, NewSchemaGenerator, articleDoc,
      findMessage, findMessageIn, article, NewSchema, mapGet, mapSet, scalarTypeMap]
  ⟨hM, hs, MessageSchema_required (NewSchemaGenerator articleDoc) article _ hM hs⟩

/-- C6: on the document of the end-to-end scenario `MessageSchema` succeeds for
`Article` and the Type of the schema is "string", not "object". -/
theorem MessageSchema_article_type :
    ∃ schema : Schema,
      MessageSchema (NewSchemaGenerator articleDoc) "Article" = .ok (SchemaOf.NewRef schema) ∧
      schema.Type_ = some ["string"] ∧ schema.Type_ ≠ some ["object"] := by
  refine ⟨{ Type_ := some ["string"], Description := "An article.", Required := ["title"],
            Properties := [("title", SchemaOf.NewRef
              { Type_ := some ["string"], Description := "the title" })] }, ?_, rfl, ?_⟩
  · simp [MessageSchema, MessageSchema.fields, fieldSchema, NewSchemaGenerator, articleDoc,
      findMessage, findMessageIn, article, NewSchema, mapGet, mapSet, scalarTypeMap]
  · simp

/-- Whenever `MessageSchema` succeeds the Type of the schema is "string". -/
theorem MessageSchema_type (sg : SchemaGenerator) (typeName : String) (s : SchemaRef)
    (h : MessageSchema sg typeName = .ok s) :
    ∃ schema : Schema, s = SchemaOf.NewRef schema ∧ schema.Type_ = some [TypeString] := by
  obtain ⟨-, out, hs, hl⟩ := MessageSchema_ok sg typeName s h
  obtain ⟨hty, -, -⟩ := MessageSchema.fields_ok sg _ _ out hl
  exact ⟨out, hs, hty⟩

/-- On the document with two messages named `example.Note`, `MessageSchema`
succeeds with the Description of the first and without properties, while the
second message, whose single field has a distinct name, has another
Description and the field `body`. -/
theorem shadowed_message_properties :
    (∃ file ∈ twoNotesDoc.Files, secondNote ∈ file.Messages) ∧
    (secondNote.Fields.map (fun f => f.Name)).Nodup ∧
    ∃ schema : Schema,
      MessageSchema (NewSchemaGenerator twoNotesDoc) secondNote.FullName
        = .ok (SchemaOf.NewRef schema) ∧
      schema.Description ≠ secondNote.Description ∧
      mapKeys schema.Properties ≠ secondNote.Fields.map (fun f => f.Name) := by
  refine ⟨⟨_, List.mem_cons_self _ _, by simp [secondNote, firstNote]⟩,
    by simp [secondNote], ?_⟩
  refine ⟨{ Type_ := some [TypeString], Description := "The first note." }, ?_, ?_, ?_⟩
  · simp [MessageSchema, MessageSchema.fields, NewSchemaGenerator, twoNotesDoc, findMessage,
      findMessageIn, firstNote, secondNote, NewSchema]
  · simp [secondNote]
  · simp [secondNote, mapKeys]

/-- C7 (amended): for a message M that `findMessage` returns for its own
FullName and whose field names are pairwise distinct: when `MessageSchema`
succeeds on M.FullName the Description of the schema is that of M and the
Properties map has one entry per field and no other, keyed by the field name
and holding the result of `fieldSchema` on the field; when `fieldSchema` fails
on a field, `MessageSchema` fails, and for a message with a Name the error
reports the first such field. -/
theorem MessageSchema_properties (sg : SchemaGenerator) (M : Message)
    (hM : findMessage sg.doc.Files M.FullName = M)
    (hnd : (M.Fields.map (fun f => f.Name)).Nodup) :
    (∀ s, MessageSchema sg M.FullName = .ok s →
      ∃ schema : Schema, s = SchemaOf.NewRef schema ∧
        schema.Description = M.Description ∧
        mapKeys schema.Properties = M.Fields.map (fun f => f.Name) ∧
        ∀ f ∈ M.Fields, ∃ v, fieldSchema sg f = .ok v ∧
          mapGet schema.Properties f.Name = some v) ∧
    ((∃ f ∈ M.Fields, ∃ e, fieldSchema sg f = .error e) →
      ∃ e, MessageSchema sg M.FullName = .error e) ∧
    (∀ pre f post, M.Fields = pre ++ f :: post → M.Name ≠ "" →
      (∀ g ∈ pre, ∃ v, fieldSchema sg g = .ok v) → (∃ e, fieldSchema sg f = .error e) →
      MessageSchema sg M.FullName = .error (.failedToGenerate f.Name f.FullType)) := by
  refine ⟨?_, ?_, ?_⟩
  · intro s h
    obtain ⟨-, out, hs, hl⟩ := MessageSchema_ok sg M.FullName s h
    rw [hM] at hl
    obtain ⟨-, hdesc, -⟩ := MessageSchema.fields_ok sg M.Fields _ out hl
    obtain ⟨hkeys, -, hvals⟩ :=
      MessageSchema.fields_properties sg M.Fields _ out hnd (by simp [mapKeys]) hl
    exact ⟨out, hs, hdesc, by simpa [mapKeys] using hkeys, hvals⟩
  · intro hfail
    unfold MessageSchema
    rw [hM]
    by_cases hn : M.Name = ""
    · exact ⟨.unknownMessageType M.FullName, by simp [hn]⟩
    · obtain ⟨e, he⟩ := MessageSchema.fields_error sg M.Fields
        { Type_ := some [TypeString], Properties := [], Description := M.Description } hfail
      refine ⟨e, ?_⟩
      simp only [hn, if_false, NewSchema]
      rw [he]
  · intro pre f post hfields hn hpre hf
    unfold MessageSchema
    rw [hM]
    simp only [hn, if_false, NewSchema]
    rw [hfields, MessageSchema.fields_first_error sg pre f post _ hpre hf]

/-- The schema of `Article` has the Description of the message and the single
property `title`, a string schema. -/
theorem MessageSchema_properties_witness :
    findMessage (NewSchemaGenerator articleDoc).doc.Files article.FullName = article ∧
    (article.Fields.map (fun f => f.Name)).Nodup ∧
    ∃ s, MessageSchema (NewSchemaGenerator articleDoc) article.FullName = .ok s ∧
      ∃ schema : Schema, s = SchemaOf.NewRef schema ∧
        schema.Description = article.Description ∧
        mapKeys schema.Properties = article.Fields.map (fun f => f.Name) ∧
        ∀ f ∈ article.Fields, ∃ v, fieldSchema (NewSchemaGenerator articleDoc) f = .ok v ∧
          mapGet schema.Properties f.Name = some v :=
  have hM : findMessage (NewSchemaGenerator articleDoc).doc.Files article.FullName
      = article := by
    simp [NewSchemaGenerator, articleDoc, findMessage, findMessageIn]
  have hnd : (article.Fields.map (fun f => f.Name)).Nodup := by simp [article]
  have hs : MessageSchema (NewSchemaGenerator articleDoc) article.FullName =
      .ok (SchemaOf.NewRef
        { Type_ := some ["string"], Description := "An article.", Required := ["title"],
          Properties := [("title", SchemaOf.NewRef
            { Type_ := some ["string"], Description := "the title" })] }) := by
    simp [MessageSchema, MessageSchema.fields, fieldSchema, NewSchemaGenerator, articleDoc,
      findMessage, findMessageIn, article, NewSchema, mapGet, mapSet, scalarTypeMap]
  ⟨hM, hnd, _, hs,
    (MessageSchema_properties (NewSchemaGenerator articleDoc) article hM hnd).1 _ hs⟩

/-- C8: for a type name that is the FullName of no message in any file of the
document of the generator, `MessageSchema` returns an error. -/
theorem MessageSchema_unknown (sg : SchemaGenerator) (typeName : String)
    (h : ∀ file ∈ sg.doc.Files, ∀ m ∈ file.Messages, m.FullName ≠ typeName) :
    MessageSchema sg typeName = .error (.unknownMessageType typeName) := by
  unfold MessageSchema
  rw [findMessage_absent sg.doc.Files typeName h]
  simp

/-- No message of the document of the end-to-end scenario is named `Comment`. -/
theorem MessageSchema_unknown_witness :
    (∀ file ∈ (NewSchemaGenerator articleDoc).doc.Files, ∀ m ∈ file.Messages,
      m.FullName ≠ "Comment") ∧
    MessageSchema (NewSchemaGenerator articleDoc) "Comment"
      = .error (.unknownMessageType "Comment") :=
  have h : ∀ file ∈ (NewSchemaGenerator articleDoc).doc.Files, ∀ m ∈ file.Messages,
      m.FullName ≠ "Comment" := by
    simp [NewSchemaGenerator, articleDoc, article]
  ⟨h, MessageSchema_unknown (NewSchemaGenerator articleDoc) "Comment" h⟩

/-! ## Scalars and references -/

/-- C9: for a non-repeated, non-map field whose FullType has no custom field
function, `fieldSchema` succeeds with a schema that carries the Description of
the field and the single type "integer" for the ten integer kinds, "number" for
double and float, "string" for string and bytes, "boolean" for bool; these are
all the kinds of the scalar table. -/
theorem fieldSchema_scalar (sg : SchemaGenerator) (f : MessageField)
    (hc : mapGet sg.CustomFields f.FullType = none) (hr : f.IsRepeated = false)
    (hm : f.IsMap = false) :
    (f.FullType ∈ ["int32", "int64", "uint32", "uint64", "sint32", "sint64",
        "fixed32", "fixed64", "sfixed32", "sfixed64"] →
      fieldSchema sg f = .ok (SchemaOf.NewRef
        { Description := f.Description, Type_ := some ["integer"] })) ∧
    (f.FullType ∈ ["double", "float"] →
      fieldSchema sg f = .ok (SchemaOf.NewRef
        { Description := f.Description, Type_ := some ["number"] })) ∧
    (f.FullType ∈ ["string", "bytes"] →
      fieldSchema sg f = .ok (SchemaOf.NewRef
        { Description := f.Description, Type_ := some ["string"] })) ∧
    (f.FullType = "bool" →
      fieldSchema sg f = .ok (SchemaOf.NewRef
        { Description := f.Description, Type_ := some ["boolean"] })) ∧
    (f.FullType ∈ mapKeys scalarTypeMap →
      f.FullType ∈ ["int32", "int64", "uint32", "uint64", "sint32", "sint64",
        "fixed32", "fixed64", "sfixed32", "sfixed64"] ∨
      f.FullType ∈ ["double", "float"] ∨ f.FullType ∈ ["string", "bytes"] ∨
      f.FullType = "bool") := by
  have key : ∀ t, mapGet scalarTypeMap f.FullType = some t →
      fieldSchema sg f = .ok (SchemaOf.NewRef
        { Description := f.Description, Type_ := some [t] }) := by
    intro t ht
    rw [fieldSchema_plain sg f hc hr hm, ht]
  refine ⟨?_, ?_, ?_, ?_, ?_⟩
  · intro h
    apply key
    simp only [List.mem_cons, List.mem_singleton, List.not_mem_nil, or_false] at h
    rcases h with h | h | h | h | h | h | h | h | h | h <;>
      simp [h, mapGet, scalarTypeMap]
  · intro h
    apply key
    simp only [List.mem_cons, List.mem_singleton, List.not_mem_nil, or_false] at h
    rcases h with h | h <;> simp [h, mapGet, scalarTypeMap]
  · intro h
    apply key
    simp only [List.mem_cons, List.mem_singleton, List.not_mem_nil, or_false] at h
    rcases h with h | h <;> simp [h, mapGet, scalarTypeMap]
  · intro h
    apply key
    simp [h, mapGet, scalarTypeMap]
  · intro h
    simp only [mapKeys, scalarTypeMap, List.map_cons, List.map_nil, List.mem_cons,
      List.mem_singleton, List.not_mem_nil, or_false] at h
    simp only [List.mem_cons, List.mem_singleton, List.not_mem_nil, or_false]
    tauto

/-- The plain field `size` of type int64 yields an integer schema. -/
theorem fieldSchema_scalar_witness :
    mapGet (NewSchemaGenerator {}).CustomFields sizeField.FullType = none ∧
    sizeField.IsRepeated = false ∧ sizeField.IsMap = false ∧
    fieldSchema (NewSchemaGenerator {}) sizeField = .ok (SchemaOf.NewRef
      { Description := "the size", Type_ := some ["integer"] }) :=
  ⟨by simp [NewSchemaGenerator, mapGet, sizeField], rfl, rfl,
    (fieldSchema_scalar (NewSchemaGenerator {}) sizeField
      (by simp [NewSchemaGenerator, mapGet, sizeField]) rfl rfl).1
      (by simp [sizeField])⟩

/-- The field `ghost` is plain, has no custom field function and no scalar
type, and its FullType is the FullName of a message of the document, yet
`fieldSchema` returns an error: the message has an empty Name. -/
theorem message_without_name_not_referenced :
    mapGet (NewSchemaGenerator ghostDoc).CustomFields ghostField.FullType = none ∧
    ghostField.IsRepeated = false ∧ ghostField.IsMap = false ∧
    ghostField.FullType ∉ mapKeys scalarTypeMap ∧
    (∃ file ∈ (NewSchemaGenerator ghostDoc).doc.Files, ∃ m ∈ file.Messages,
      m.FullName = ghostField.FullType) ∧
    fieldSchema (NewSchemaGenerator ghostDoc) ghostField
      = .error (.unhandledFieldType "example.Ghost") := by
  refine ⟨by simp [NewSchemaGenerator, mapGet, ghostField], rfl, rfl,
    by simp [mapKeys, scalarTypeMap, ghostField], ?_, ?_⟩
  · exact ⟨_, List.mem_cons_self _ _, ghost, by simp, rfl⟩
  · simp [fieldSchema, NewSchemaGenerator, mapGet, ghostField, scalarTypeMap, ghostDoc,
      findEnum, findEnumIn, findMessage, findMessageIn, ghost]

/-- C10 (amended): for a non-repeated, non-map field whose FullType has no
custom field function and is not in the scalar table: if FullType is the
FullName of an enum of the document, or the message that `findMessage` returns
for FullType has a non-empty Name, `fieldSchema` returns the reference schema
with Ref "#/components/schemas/" followed by FullType and no value; if no enum
bears the name and the message that `findMessage` returns has an empty Name,
in particular if no message bears the name either, `fieldSchema` returns an
error. -/
theorem fieldSchema_reference (sg : SchemaGenerator) (f : MessageField)
    (hc : mapGet sg.CustomFields f.FullType = none) (hr : f.IsRepeated = false)
    (hm : f.IsMap = false) (hs : f.FullType ∉ mapKeys scalarTypeMap) :
    (((∃ file ∈ sg.doc.Files, ∃ e ∈ file.Enums, e.FullName = f.FullType) ∨
        (findMessage sg.doc.Files f.FullType).Name ≠ "") →
      fieldSchema sg f = .ok (SchemaRef.mk ("#/components/schemas/" ++ f.FullType) none)) ∧
    ((∀ file ∈ sg.doc.Files, ∀ e ∈ file.Enums, e.FullName ≠ f.FullType) →
      (findMessage sg.doc.Files f.FullType).Name = "" →
      fieldSchema sg f = .error (.unhandledFieldType f.FullType)) ∧
    ((∀ file ∈ sg.doc.Files, ∀ e ∈ file.Enums, e.FullName ≠ f.FullType) →
      (∀ file ∈ sg.doc.Files, ∀ m ∈ file.Messages, m.FullName ≠ f.FullType) →
      fieldSchema sg f = .error (.unhandledFieldType f.FullType)) := by
  have hnone : mapGet scalarTypeMap f.FullType = none := (mapGet_eq_none_iff _ _).2 hs
  have herr : (∀ file ∈ sg.doc.Files, ∀ e ∈ file.Enums, e.FullName ≠ f.FullType) →
      (findMessage sg.doc.Files f.FullType).Name = "" →
      fieldSchema sg f = .error (.unhandledFieldType f.FullType) := by
    intro hne hname
    have hflag : ¬ (findEnum sg.doc.Files f.FullType).2 = true := by
      rw [findEnum_snd_iff]
      rintro ⟨file, hfile, e, he, heq⟩
      exact hne file hfile e he heq
    rw [fieldSchema_plain sg f hc hr hm, hnone]
    simp [hflag, hname]
  refine ⟨?_, herr, ?_⟩
  · intro h
    rw [fieldSchema_plain sg f hc hr hm, hnone]
    by_cases hflag : (findEnum sg.doc.Files f.FullType).2 = true
    · simp [hflag, schemaRef, NewSchemaRef]
    · rcases h with h | h
      · exact absurd ((findEnum_snd_iff _ _).2 h) hflag
      · simp [hflag, h, schemaRef, NewSchemaRef]
  · intro hne hnm
    apply herr hne
    rw [findMessage_absent sg.doc.Files f.FullType hnm]

/-- The field `article` of the document of the end-to-end scenario yields a
reference to the schema of `Article`. -/
theorem fieldSchema_reference_witness :
    mapGet (NewSchemaGenerator articleDoc).CustomFields articleField.FullType = none ∧
    articleField.IsRepeated = false ∧ articleField.IsMap = false ∧
    articleField.FullType ∉ mapKeys scalarTypeMap ∧
    (findMessage (NewSchemaGenerator articleDoc).doc.Files articleField.FullType).Name ≠ "" ∧
    fieldSchema (NewSchemaGenerator articleDoc) articleField
      = .ok (SchemaRef.mk "#/components/schemas/Article" none) :=
  have hn : (findMessage (NewSchemaGenerator articleDoc).doc.Files
      articleField.FullType).Name ≠ "" := by
    simp [NewSchemaGenerator, articleDoc, findMessage, findMessageIn, article, articleField]
  ⟨by simp [NewSchemaGenerator, mapGet, articleField], rfl, rfl,
    by simp [mapKeys, scalarTypeMap, articleField], hn,
    (fieldSchema_reference (NewSchemaGenerator articleDoc) articleField
      (by simp [NewSchemaGenerator, mapGet, articleField]) rfl rfl
      (by simp [mapKeys, scalarTypeMap, articleField])).1 (Or.inr hn)⟩

/-! ## The end-to-end scenario -/

/-- On the document of the end-to-end scenario, `ToOpenAPI` returns `articleAPI`. -/
theorem ToOpenAPI_articleDoc (application version : String) :
    ToOpenAPI application version articleDoc (NewSchemaGenerator articleDoc)
      = .ok (articleAPI application version) := by
  simp [ToOpenAPI, ToOpenAPI.files, ToOpenAPI.services, ToOpenAPI.methods, ToOpenAPI.messages,
    ToOpenAPI.enums, createOperation, articleDoc, article, NewSchemaGenerator, mapGet, mapSet,
    MessageSchema, MessageSchema.fields, fieldSchema, findMessage, findMessageIn, NewSchema,
    scalarTypeMap, T.AddOperation, T.setSchema, PathItem.SetOperation, Operation.AddResponse200,
    NewResponses, RequestBody.WithJSONSchemaRef, Response.WithJSONSchemaRef,
    NewContentWithJSONSchemaRef, schemaRef, NewSchemaRef, schemaID, Authenticate,
    articleSchema, titleSchema, articleContent, articleOperation, articleAPI, SchemaOf.NewRef,
    MethodPost, TypeString]

/-- C15: on the document with the message `Article` (one required string
field `title`) and the service `Docs` with the method `Get` from `Article` to
`Article`, `ToOpenAPI` with the default generator succeeds; the schema
registered under `Article` has Required `title` alone and the property `title`
of type string; the path map has the single key `/twirp/Docs/Get`, whose item
has a POST operation and no other, with the request body and the response
body of status 200 both the reference `#/components/schemas/Article`. -/
theorem ToOpenAPI_end_to_end (application version : String) :
    ∃ out : T,
      ToOpenAPI application version articleDoc (NewSchemaGenerator articleDoc) = .ok out ∧
      (∃ schema title : Schema,
        mapGet out.Components.Schemas "Article" = some (SchemaOf.NewRef schema) ∧
        schema.Required = ["title"] ∧
        mapGet schema.Properties "title" = some (SchemaOf.NewRef title) ∧
        title.Type_ = some ["string"]) ∧
      mapKeys out.Paths = ["/twirp/Docs/Get"] ∧
      (∃ (op : Operation) (request : RequestBody) (response : Response),
        mapGet out.Paths "/twirp/Docs/Get" = some { Post := some op } ∧
        op.RequestBody = some { Value := some request } ∧
        mapGet request.Content "application/json"
          = some { Schema := some (SchemaRef.mk "#/components/schemas/Article" none) } ∧
        op.Responses.bind (fun responses => mapGet responses "200")
          = some { Value := some response } ∧
        mapGet response.Content "application/json"
          = some { Schema := some (SchemaRef.mk "#/components/schemas/Article" none) }) := by
  refine ⟨articleAPI application version, ToOpenAPI_articleDoc application version, ?_, ?_, ?_⟩
  · exact ⟨articleSchema, titleSchema, by simp [articleAPI, mapGet], rfl,
      by simp [articleSchema, mapGet], rfl⟩
  · simp [articleAPI, mapKeys]
  · refine ⟨articleOperation, { Content := articleContent },
      { Description := some "Method response", Content := articleContent },
      by simp [articleAPI, mapGet], rfl, by simp [articleContent, mapGet], ?_, ?_⟩
    · simp [articleOperation, mapGet]
    · simp [articleContent, mapGet]

/-! ## `EnumSchema` -/

theorem EnumSchema_foldl (values : List EnumValue) :
    ∀ schema : Schema,
      values.foldl (fun (schema : Schema) v => { schema with Enum := schema.Enum ++ [v.Name] })
          schema
        = { schema with Enum := schema.Enum ++ values.map (fun v => v.Name) } := by
  induction values with
  | nil => intro schema; simp
  | cons v rest ih => intro schema; simp [ih]

/-- The value of `EnumSchema`. -/
theorem EnumSchema_eq (sg : SchemaGenerator) (e : Enum) :
    EnumSchema sg e = .ok (SchemaOf.NewRef
      { Type_ := some [TypeString], Description := e.Description,
        Enum := e.Values.map (fun v => v.Name) }) := by
  unfold EnumSchema
  simp [EnumSchema_foldl, NewSchema]

/-- C16: for every enum, `EnumSchema` returns no error but a schema of the
single type "string" whose Description is that of the enum and whose Enum list
is the list of the Names of the values, in declaration order. -/
theorem EnumSchema_names (sg : SchemaGenerator) (e : Enum) :
    ∃ schema : Schema, EnumSchema sg e = .ok (SchemaOf.NewRef schema) ∧
      schema.Type_ = some ["string"] ∧ schema.Description = e.Description ∧
      schema.Enum = e.Values.map (fun v => v.Name) :=
  ⟨_, EnumSchema_eq sg e, rfl, rfl, rfl⟩

/-! ## The operations of `ToOpenAPI` -/

/-- The function `createOperation` returns the path and, but for the tag and
the security requirement, the operation of the method; it never fails. -/
theorem createOperation_eq (sg : SchemaGenerator) (service : Service) (method : Method) :
    createOperation sg service method = .ok (methodPath service method,
      { methodOperation service method with Tags := [], Security := none }) := by
  simp [createOperation, methodPath, methodOperation, Operation.AddResponse200,
    RequestBody.WithJSONSchemaRef, Response.WithJSONSchemaRef]

theorem addOperations_append (ops₁ ops₂ : List (String × Operation)) :
    ∀ paths, addOperations paths (ops₁ ++ ops₂) = addOperations (addOperations paths ops₁) ops₂ := by
  induction ops₁ with
  | nil => intro paths; simp [addOperations]
  | cons o rest ih =>
    intro paths
    obtain ⟨path, op⟩ := o
    simp [addOperations, ih]

/-- The method loop never fails and adds the operations of the methods. -/
theorem ToOpenAPI.methods_eq (sg : SchemaGenerator) (service : Service)
    (methods : List Method) :
    ∀ doc : T, ToOpenAPI.methods sg requireBearer service methods doc =
      .ok { doc with
        Paths := addOperations doc.Paths (methods.map
          (fun method => (methodPath service method, methodOperation service method))) } := by
  induction methods with
  | nil => intro doc; simp [ToOpenAPI.methods, addOperations]
  | cons m rest ih =>
    intro doc
    rw [ToOpenAPI.methods, createOperation_eq]
    simp only [ih, List.map_cons, addOperations]
    simp [T.AddOperation, methodOperation]

/-- The service loop never fails; it appends one tag per service and adds the
operations of the methods. -/
theorem ToOpenAPI.services_eq (sg : SchemaGenerator) (services : List Service) :
    ∀ doc : T, ToOpenAPI.services sg requireBearer services doc =
      .ok { doc with
        Tags := doc.Tags ++ services.map
          (fun service => { Name := service.Name, Description := service.Description })
        Paths := addOperations doc.Paths (servicesOperations services) } := by
  induction services with
  | nil => intro doc; simp [ToOpenAPI.services, servicesOperations, addOperations]
  | cons service rest ih =>
    intro doc
    rw [ToOpenAPI.services, ToOpenAPI.methods_eq]
    simp [ih, servicesOperations, addOperations_append]

/-! ## The schema registry of `ToOpenAPI` -/

theorem mem_mapKeys_mapSet {V : Type} (m : List (String × V)) (k k' : String) (v : V) :
    k' ∈ mapKeys (mapSet m k v) ↔ k' = k ∨ k' ∈ mapKeys m := by
  induction m with
  | nil => simp [mapSet, mapKeys]
  | cons p rest ih =>
    obtain ⟨k₀, v₀⟩ := p
    simp only [mapKeys] at ih
    by_cases h : k₀ = k
    · subst h
      simp [mapSet, mapKeys]
    · simp only [mapSet, h, if_false, mapKeys, List.map_cons, List.mem_cons, ih]
      tauto

theorem mem_mapSet {V : Type} (m : List (String × V)) (k : String) (v : V)
    (p : String × V) (hp : p ∈ mapSet m k v) : p = (k, v) ∨ p ∈ m := by
  induction m with
  | nil => simpa [mapSet] using hp
  | cons q rest ih =>
    obtain ⟨k₀, v₀⟩ := q
    by_cases h : k₀ = k
    · simp only [mapSet, h, if_true, List.mem_cons] at hp
      rcases hp with hp | hp
      · exact Or.inl hp
      · exact Or.inr (List.mem_cons_of_mem _ hp)
    · simp only [mapSet, h, if_false, List.mem_cons] at hp
      rcases hp with hp | hp
      · exact Or.inr (by simp [hp])
      · rcases ih hp with h' | h'
        · exact Or.inl h'
        · exact Or.inr (List.mem_cons_of_mem _ h')

theorem firstFailure_append (sg : SchemaGenerator) (xs ys : List Message) :
    firstFailure sg (xs ++ ys) = (firstFailure sg xs).orElse (fun _ => firstFailure sg ys) := by
  induction xs with
  | nil => simp [firstFailure]
  | cons m rest ih =>
    simp only [List.cons_append, firstFailure]
    cases mapGet sg.CustomFields m.FullName with
    | some c => simpa using ih
    | none =>
      cases MessageSchema sg m.FullName with
      | error e => simp
      | ok v => simpa using ih

/-- The message loop fails exactly with the first failure of its messages. -/
theorem ToOpenAPI.messages_error_iff (sg : SchemaGenerator) (messages : List Message)
    (e : GenError) :
    ∀ doc : T, ToOpenAPI.messages sg messages doc = .error e ↔
      firstFailure sg messages = some e := by
  induction messages with
  | nil => intro doc; simp [ToOpenAPI.messages, firstFailure]
  | cons m rest ih =>
    intro doc
    rw [ToOpenAPI.messages, firstFailure]
    cases mapGet sg.CustomFields m.FullName with
    | some c => simpa using ih doc
    | none =>
      cases MessageSchema sg m.FullName with
      | error e' => simp
      | ok v => simpa using ih _

/-- On success the message loop leaves the paths alone and registers, under
its FullName, the schema of each message without custom field function. -/
theorem ToOpenAPI.messages_ok (sg : SchemaGenerator) (messages : List Message) :
    ∀ doc out : T, ToOpenAPI.messages sg messages doc = .ok out →
      out.Paths = doc.Paths ∧
      (∀ k, k ∈ mapKeys out.Components.Schemas ↔
        k ∈ mapKeys doc.Components.Schemas ∨
        ∃ m ∈ messages, mapGet sg.CustomFields m.FullName = none ∧ m.FullName = k) ∧
      (∀ p ∈ out.Components.Schemas, p ∈ doc.Components.Schemas ∨
        ∃ m ∈ messages, mapGet sg.CustomFields m.FullName = none ∧
          MessageSchema sg m.FullName = .ok p.2) := by
  induction messages with
  | nil =>
    intro doc out h
    simp only [ToOpenAPI.messages, Except.ok.injEq] at h
    subst h
    simp
  | cons m rest ih =>
    intro doc out h
    rw [ToOpenAPI.messages] at h
    cases hc : mapGet sg.CustomFields m.FullName with
    | some c =>
      simp only [hc] at h
      obtain ⟨h1, h2, h3⟩ := ih doc out h
      refine ⟨h1, ?_, ?_⟩
      · intro k
        rw [h2 k]
        constructor
        · rintro (hk | ⟨m', hm', hc', hk⟩)
          · exact Or.inl hk
          · exact Or.inr ⟨m', List.mem_cons_of_mem _ hm', hc', hk⟩
        · rintro (hk | ⟨m', hm', hc', hk⟩)
          · exact Or.inl hk
          · rcases List.mem_cons.1 hm' with e | hm'
            · subst e
              rw [hc] at hc'
              cases hc'
            · exact Or.inr ⟨m', hm', hc', hk⟩
      · intro p hp
        rcases h3 p hp with hp | ⟨m', hm', hc', hk⟩
        · exact Or.inl hp
        · exact Or.inr ⟨m', List.mem_cons_of_mem _ hm', hc', hk⟩
    | none =>
      simp only [hc] at h
      cases hs : MessageSchema sg m.FullName with
      | error e => simp [hs] at h
      | ok v =>
        simp only [hs] at h
        obtain ⟨h1, h2, h3⟩ := ih _ out h
        refine ⟨h1, ?_, ?_⟩
        · intro k
          rw [h2 k]
          simp only [T.setSchema, schemaID, mem_mapKeys_mapSet]
          constructor
          · rintro ((hk | hk) | ⟨m', hm', hc', hk⟩)
            · exact Or.inr ⟨m, List.mem_cons_self _ _, hc, hk.symm⟩
            · exact Or.inl hk
            · exact Or.inr ⟨m', List.mem_cons_of_mem _ hm', hc', hk⟩
          · rintro (hk | ⟨m', hm', hc', hk⟩)
            · exact Or.inl (Or.inr hk)
            · rcases List.mem_cons.1 hm' with e | hm'
              · subst e
                exact Or.inl (Or.inl hk.symm)
              · exact Or.inr ⟨m', hm', hc', hk⟩
        · intro p hp
          rcases h3 p hp with hp | ⟨m', hm', hc', hk⟩
          · simp only [T.setSchema, schemaID] at hp
            rcases mem_mapSet _ _ _ p hp with hp | hp
            · refine Or.inr ⟨m, List.mem_cons_self _ _, hc, ?_⟩
              rw [hs, hp]
            · exact Or.inl hp
          · exact Or.inr ⟨m', List.mem_cons_of_mem _ hm', hc', hk⟩

/-- The enum loop never fails; it leaves the paths alone and registers the
schema of each enum under its FullName. -/
theorem ToOpenAPI.enums_ok (sg : SchemaGenerator) (enums : List Enum) :
    ∀ doc : T, ∃ out : T, ToOpenAPI.enums sg enums doc = .ok out ∧
      out.Paths = doc.Paths ∧
      (∀ k, k ∈ mapKeys out.Components.Schemas ↔
        k ∈ mapKeys doc.Components.Schemas ∨ ∃ e ∈ enums, e.FullName = k) ∧
      (∀ p ∈ out.Components.Schemas, p ∈ doc.Components.Schemas ∨
        ∃ e ∈ enums, EnumSchema sg e = .ok p.2) := by
  induction enums with
  | nil =>
    intro doc
    exact ⟨doc, by simp [ToOpenAPI.enums], rfl, by simp, by simp⟩
  | cons e rest ih =>
    intro doc
    rw [ToOpenAPI.enums]
    cases hs : EnumSchema sg e with
    | error err =>
      rw [EnumSchema_eq] at hs
      cases hs
    | ok v =>
      obtain ⟨out, h0, h1, h2, h3⟩ := ih (doc.setSchema (schemaID e.FullName) v)
      refine ⟨out, h0, h1, ?_, ?_⟩
      · intro k
        rw [h2 k]
        simp only [T.setSchema, schemaID, mem_mapKeys_mapSet, List.mem_cons, exists_eq_or_imp]
        constructor
        · rintro ((hk | hk) | hk)
          · exact Or.inr (Or.inl hk.symm)
          · exact Or.inl hk
          · exact Or.inr (Or.inr hk)
        · rintro (hk | hk | hk)
          · exact Or.inl (Or.inr hk)
          · exact Or.inl (Or.inl hk.symm)
          · exact Or.inr hk
      · intro p hp
        rcases h3 p hp with hp | ⟨e', he', hk⟩
        · simp only [T.setSchema, schemaID] at hp
          rcases mem_mapSet _ _ _ p hp with hp | hp
          · refine Or.inr ⟨e, List.mem_cons_self _ _, ?_⟩
            rw [hs, hp]
          · exact Or.inl hp
        · exact Or.inr ⟨e', List.mem_cons_of_mem _ he', hk⟩

/-- The file loop fails exactly with the first failure among the messages of
all files. -/
theorem ToOpenAPI.files_error_iff (sg : SchemaGenerator) (files : List File) (e : GenError) :
    ∀ doc : T, ToOpenAPI.files sg requireBearer files doc = .error e ↔
      firstFailure sg (allMessages files) = some e := by
  induction files with
  | nil => intro doc; simp [ToOpenAPI.files, allMessages, firstFailure]
  | cons f rest ih =>
    intro doc
    rw [ToOpenAPI.files, ToOpenAPI.services_eq, allMessages, firstFailure_append]
    simp only
    cases hm : ToOpenAPI.messages sg f.Messages _ with
    | error e' =>
      rw [(ToOpenAPI.messages_error_iff sg f.Messages e' _).1 hm]
      simp
    | ok doc₂ =>
      have hnone : firstFailure sg f.Messages = none := by
        cases hf : firstFailure sg f.Messages with
        | none => rfl
        | some e' =>
          rw [(ToOpenAPI.messages_error_iff sg f.Messages e' _).2 hf] at hm
          cases hm
      obtain ⟨doc₃, h3, -⟩ := ToOpenAPI.enums_ok sg f.Enums doc₂
      simp only [h3, hnone, Option.orElse]
      exact ih doc₃

/-- On success the file loop adds the operations of all methods and registers
the schemas of the messages without custom field function and of the enums. -/
theorem ToOpenAPI.files_ok (sg : SchemaGenerator) (files : List File) :
    ∀ doc out : T, ToOpenAPI.files sg requireBearer files doc = .ok out →
      out.Paths = addOperations doc.Paths (filesOperations files) ∧
      (∀ k, k ∈ mapKeys out.Components.Schemas ↔
        k ∈ mapKeys doc.Components.Schemas ∨
        (∃ m ∈ allMessages files, mapGet sg.CustomFields m.FullName = none ∧ m.FullName = k) ∨
        ∃ e ∈ allEnums files, e.FullName = k) ∧
      (∀ p ∈ out.Components.Schemas, p ∈ doc.Components.Schemas ∨
        (∃ m ∈ allMessages files, mapGet sg.CustomFields m.FullName = none ∧
          MessageSchema sg m.FullName = .ok p.2) ∨
        ∃ e ∈ allEnums files, EnumSchema sg e = .ok p.2) := by
  induction files with
  | nil =>
    intro doc out h
    simp only [ToOpenAPI.files, Except.ok.injEq] at h
    subst h
    simp [filesOperations, addOperations, allMessages, allEnums]
  | cons f rest ih =>
    intro doc out h
    rw [ToOpenAPI.files, ToOpenAPI.services_eq] at h
    cases hm : ToOpenAPI.messages sg f.Messages
        { doc with
          Tags := doc.Tags ++ f.Services.map
            (fun service => { Name := service.Name, Description := service.Description })
          Paths := addOperations doc.Paths (servicesOperations f.Services) } with
    | error e' => simp [hm] at h
    | ok doc₂ =>
      simp only [hm] at h
      obtain ⟨doc₃, h3, hp3, hk3, he3⟩ := ToOpenAPI.enums_ok sg f.Enums doc₂
      simp only [h3] at h
      obtain ⟨hp2, hk2, he2⟩ := ToOpenAPI.messages_ok sg f.Messages _ doc₂ hm
      obtain ⟨hp, hk, he⟩ := ih doc₃ out h
      simp only at hp2 hk2 he2
      refine ⟨?_, ?_, ?_⟩
      · rw [hp, hp3, hp2, filesOperations, addOperations_append]
      · intro k
        rw [hk k, hk3 k, hk2 k]
        simp only [allMessages, allEnums, List.mem_append]
        constructor
        · rintro (((h0 | ⟨m, hm', hc, hn⟩) | ⟨e, he', hn⟩) | ⟨m, hm', hc, hn⟩ | ⟨e, he', hn⟩)
          · exact Or.inl h0
          · exact Or.inr (Or.inl ⟨m, Or.inl hm', hc, hn⟩)
          · exact Or.inr (Or.inr ⟨e, Or.inl he', hn⟩)
          · exact Or.inr (Or.inl ⟨m, Or.inr hm', hc, hn⟩)
          · exact Or.inr (Or.inr ⟨e, Or.inr he', hn⟩)
        · rintro (h0 | ⟨m, hm' | hm', hc, hn⟩ | ⟨e, he' | he', hn⟩)
          · exact Or.inl (Or.inl (Or.inl h0))
          · exact Or.inl (Or.inl (Or.inr ⟨m, hm', hc, hn⟩))
          · exact Or.inr (Or.inl ⟨m, hm', hc, hn⟩)
          · exact Or.inl (Or.inr ⟨e, he', hn⟩)
          · exact Or.inr (Or.inr ⟨e, he', hn⟩)
      · intro p hp'
        simp only [allMessages, allEnums, List.mem_append]
        rcases he p hp' with h0 | ⟨m, hm', hc, hn⟩ | ⟨e, he', hn⟩
        · rcases he3 p h0 with h0 | ⟨e, he', hn⟩
          · rcases he2 p h0 with h0 | ⟨m, hm', hc, hn⟩
            · exact Or.inl h0
            · exact Or.inr (Or.inl ⟨m, Or.inl hm', hc, hn⟩)
          · exact Or.inr (Or.inr ⟨e, Or.inl he', hn⟩)
        · exact Or.inr (Or.inl ⟨m, Or.inr hm', hc, hn⟩)
        · exact Or.inr (Or.inr ⟨e, Or.inr he', hn⟩)

/-- The function `ToOpenAPI` fails exactly with the first failure among the
messages of the document. -/
theorem ToOpenAPI_error_iff (application version : String) (d : Doc) (sg : SchemaGenerator)
    (e : GenError) :
    ToOpenAPI application version d sg = .error e ↔
      firstFailure sg (allMessages d.Files) = some e := by
  unfold ToOpenAPI
  exact ToOpenAPI.files_error_iff sg d.Files e _

/-- On success the paths of the output are those of the operations of all
methods, and the schema registry holds, under their FullNames, the schemas of
the messages without custom field function and of the enums, and nothing else. -/
theorem ToOpenAPI_ok (application version : String) (d : Doc) (sg : SchemaGenerator) (out : T)
    (h : ToOpenAPI application version d sg = .ok out) :
    out.Paths = addOperations [] (filesOperations d.Files) ∧
    (∀ k, k ∈ mapKeys out.Components.Schemas ↔
      (∃ m ∈ allMessages d.Files, mapGet sg.CustomFields m.FullName = none ∧ m.FullName = k) ∨
      ∃ e ∈ allEnums d.Files, e.FullName = k) ∧
    (∀ p ∈ out.Components.Schemas,
      (∃ m ∈ allMessages d.Files, mapGet sg.CustomFields m.FullName = none ∧
        MessageSchema sg m.FullName = .ok p.2) ∨
      ∃ e ∈ allEnums d.Files, EnumSchema sg e = .ok p.2) := by
  unfold ToOpenAPI at h
  obtain ⟨hp, hk, he⟩ := ToOpenAPI.files_ok sg d.Files _ out h
  refine ⟨hp, ?_, ?_⟩
  · intro k
    rw [hk k]
    simp [mapKeys]
  · intro p hp'
    simpa using he p hp'

/-! ## The path map -/

theorem mapGet_mem {V : Type} (m : List (String × V)) (k : String) (v : V)
    (h : mapGet m k = some v) : (k, v) ∈ m := by
  induction m with
  | nil => simp [mapGet] at h
  | cons p rest ih =>
    obtain ⟨k', v'⟩ := p
    by_cases hk : k' = k
    · simp only [mapGet, hk, if_true, Option.some.injEq] at h
      simp [hk, h]
    · simp only [mapGet, hk, if_false] at h
      exact List.mem_cons_of_mem _ (ih h)

theorem mapGet_of_mem_nodup {V : Type} (m : List (String × V)) (k : String) (v : V)
    (hnd : (mapKeys m).Nodup) (h : (k, v) ∈ m) : mapGet m k = some v := by
  induction m with
  | nil => simp at h
  | cons p rest ih =>
    obtain ⟨k', v'⟩ := p
    simp only [mapKeys, List.map_cons, List.nodup_cons] at hnd
    rcases List.mem_cons.1 h with e | hmem
    · cases e
      simp [mapGet]
    · have hne : ¬ k' = k := by
        intro e
        subst e
        exact hnd.1 (List.mem_map_of_mem Prod.fst hmem)
      simp only [mapGet, hne, if_false]
      exact ih hnd.2 hmem

theorem mapSet_of_not_mem {V : Type} (m : List (String × V)) (k : String) (v : V)
    (hk : k ∉ mapKeys m) : mapSet m k v = m ++ [(k, v)] := by
  induction m with
  | nil => simp [mapSet]
  | cons p rest ih =>
    obtain ⟨k', v'⟩ := p
    simp only [mapKeys, List.map_cons, List.mem_cons, not_or] at hk
    have hne : ¬ k' = k := fun e => hk.1 e.symm
    simp only [mapSet, hne, if_false, List.cons_append, List.cons.injEq, true_and]
    exact ih hk.2

theorem mem_servicesOperations (services : List Service) (o : String × Operation) :
    o ∈ servicesOperations services ↔
      ∃ S ∈ services, ∃ m ∈ S.Methods, o = (methodPath S m, methodOperation S m) := by
  induction services with
  | nil => simp [servicesOperations]
  | cons S rest ih =>
    simp only [servicesOperations, List.mem_append, List.mem_map, ih, List.mem_cons,
      exists_eq_or_imp]
    constructor
    · rintro (⟨m, hm, e⟩ | h)
      · exact Or.inl ⟨m, hm, e.symm⟩
      · exact Or.inr h
    · rintro (⟨m, hm, e⟩ | h)
      · exact Or.inl ⟨m, hm, e.symm⟩
      · exact Or.inr h

/-- The operations of all files are those of the methods of the services of
the files. -/
theorem mem_filesOperations (files : List File) (o : String × Operation) :
    o ∈ filesOperations files ↔
      ∃ file ∈ files, ∃ S ∈ file.Services, ∃ m ∈ S.Methods,
        o = (methodPath S m, methodOperation S m) := by
  induction files with
  | nil => simp [filesOperations]
  | cons f rest ih =>
    simp only [filesOperations, List.mem_append, mem_servicesOperations, ih, List.mem_cons,
      exists_eq_or_imp]

/-- When the paths are pairwise distinct and new, each operation gets a path
item of its own, with the operation under POST and no other verb. -/
theorem addOperations_of_nodup (ops : List (String × Operation)) :
    ∀ paths : List (String × PathItem),
      (mapKeys paths ++ ops.map Prod.fst).Nodup →
      addOperations paths ops =
        paths ++ ops.map (fun o => (o.1, ({ Post := some o.2 } : PathItem))) := by
  induction ops with
  | nil => intro paths _; simp [addOperations]
  | cons o rest ih =>
    intro paths hnd
    obtain ⟨path, op⟩ := o
    have hnew : path ∉ mapKeys paths := by
      intro hmem
      have := (List.nodup_append.1 hnd).2.2
      exact this hmem (by simp)
    have hget : mapGet paths path = none := (mapGet_eq_none_iff _ _).2 hnew
    have hstep : (({ Paths := paths } : T).AddOperation path MethodPost op).Paths
        = paths ++ [(path, ({ Post := some op } : PathItem))] := by
      simp only [T.AddOperation, hget]
      rw [mapSet_of_not_mem _ _ _ hnew]
      simp [PathItem.SetOperation, MethodPost]
    rw [addOperations, hstep, ih]
    · simp
    · simp only [mapKeys, List.map_append, List.map_cons, List.map_nil, List.append_assoc,
        List.singleton_append]
      simpa [mapKeys] using hnd

/-- Every entry of the path map built from the empty map is the path of an
operation of the list with that operation under POST and no other verb. -/
theorem addOperations_entries (all ops : List (String × Operation)) :
    ∀ paths : List (String × PathItem),
      (∀ o ∈ ops, o ∈ all) →
      (∀ p ∈ paths, ∃ o ∈ all, p = (o.1, ({ Post := some o.2 } : PathItem))) →
      ∀ p ∈ addOperations paths ops,
        ∃ o ∈ all, p = (o.1, ({ Post := some o.2 } : PathItem)) := by
  induction ops with
  | nil => intro paths _ hp; simpa [addOperations] using hp
  | cons o rest ih =>
    intro paths hall hp
    obtain ⟨path, op⟩ := o
    rw [addOperations]
    apply ih
    · exact fun o ho => hall o (List.mem_cons_of_mem _ ho)
    · intro p hmem
      simp only [T.AddOperation] at hmem
      rcases mem_mapSet _ _ _ p hmem with e | hold
      · refine ⟨(path, op), hall _ (List.mem_cons_self _ _), ?_⟩
        rw [e]
        cases hg : mapGet paths path with
        | none => simp [PathItem.SetOperation, MethodPost]
        | some item =>
          obtain ⟨o', -, ho'⟩ := hp _ (mapGet_mem _ _ _ hg)
          have hitem : item = ({ Post := some o'.2 } : PathItem) := by
            have := congrArg Prod.snd ho'
            simpa using this
          simp [PathItem.SetOperation, MethodPost, hitem]
      · exact hp p hold

/-- The request body and the response of status 200 of the operation of a
method are JSON contents that refer to the request type and the response type. -/
theorem methodOperation_bodies (S : Service) (m : Method) :
    (methodOperation S m).Tags = [S.Name] ∧
    (methodOperation S m).Security = some [[("bearer", [])]] ∧
    ∃ (request : RequestBody) (response : Response),
      (methodOperation S m).RequestBody = some { Value := some request } ∧
      mapGet request.Content "application/json"
        = some { Schema := some (SchemaRef.mk ("#/components/schemas/" ++ m.RequestType) none) } ∧
      (methodOperation S m).Responses.bind (fun responses => mapGet responses "200")
        = some { Value := some response } ∧
      mapGet response.Content "application/json"
        = some { Schema := some (SchemaRef.mk ("#/components/schemas/" ++ m.ResponseType) none) } := by
  refine ⟨rfl, by simp [methodOperation, requireBearer, Authenticate, mapSet], ?_⟩
  refine ⟨{ Content := NewContentWithJSONSchemaRef (schemaRef m.RequestType) },
    { Description := some "Method response",
      Content := NewContentWithJSONSchemaRef (schemaRef m.ResponseType) }, rfl, ?_, ?_, ?_⟩
  · simp [NewContentWithJSONSchemaRef, mapGet, schemaRef, NewSchemaRef]
  · simp [methodOperation, NewResponses, mapSet, mapGet]
  · simp [NewContentWithJSONSchemaRef, mapGet, schemaRef, NewSchemaRef]

/-- C14: when `ToOpenAPI` succeeds and no two methods of the document have the
same path, then for every service S and method m of S the path map has, under
"/twirp/" ++ S.FullName ++ "/" ++ m.Name, an item with a POST operation and no
other; the operation has the tag S.Name, requires the scheme "bearer", and its
JSON request body and JSON response body of status 200 are the references
"#/components/schemas/" ++ m.RequestType and
"#/components/schemas/" ++ m.ResponseType; the path map has no other key. -/
theorem ToOpenAPI_paths (application version : String) (d : Doc) (sg : SchemaGenerator)
    (out : T) (hok : ToOpenAPI application version d sg = .ok out)
    (hnd : ((filesOperations d.Files).map Prod.fst).Nodup) :
    (∀ file ∈ d.Files, ∀ S ∈ file.Services, ∀ m ∈ S.Methods,
      ∃ (op : Operation) (request : RequestBody) (response : Response),
        mapGet out.Paths ("/twirp/" ++ S.FullName ++ "/" ++ m.Name) = some { Post := some op } ∧
        op.Tags = [S.Name] ∧ op.Security = some [[("bearer", [])]] ∧
        op.RequestBody = some { Value := some request } ∧
        mapGet request.Content "application/json"
          = some { Schema := some (SchemaRef.mk ("#/components/schemas/" ++ m.RequestType) none) } ∧
        op.Responses.bind (fun responses => mapGet responses "200")
          = some { Value := some response } ∧
        mapGet response.Content "application/json"
          = some { Schema := some (SchemaRef.mk ("#/components/schemas/" ++ m.ResponseType) none) }) ∧
    (∀ k, k ∈ mapKeys out.Paths ↔
      ∃ file ∈ d.Files, ∃ S ∈ file.Services, ∃ m ∈ S.Methods,
        k = "/twirp/" ++ S.FullName ++ "/" ++ m.Name) := by
  obtain ⟨hp, -, -⟩ := ToOpenAPI_ok application version d sg out hok
  rw [addOperations_of_nodup _ _ (by simpa [mapKeys] using hnd), List.nil_append] at hp
  have hkeys : mapKeys out.Paths = (filesOperations d.Files).map Prod.fst := by
    rw [hp]
    simp [mapKeys]
  constructor
  · intro file hfile S hS m hm
    obtain ⟨htags, hsec, request, response, h1, h2, h3, h4⟩ := methodOperation_bodies S m
    refine ⟨methodOperation S m, request, response, ?_, htags, hsec, h1, h2, h3, h4⟩
    apply mapGet_of_mem_nodup _ _ _ (by rw [hkeys]; exact hnd)
    rw [hp]
    refine List.mem_map.2 ⟨(methodPath S m, methodOperation S m), ?_, rfl⟩
    exact (mem_filesOperations _ _).2 ⟨file, hfile, S, hS, m, hm, rfl⟩
  · intro k
    rw [hkeys, List.mem_map]
    constructor
    · rintro ⟨o, ho, rfl⟩
      obtain ⟨file, hfile, S, hS, m, hm, e⟩ := (mem_filesOperations _ _).1 ho
      exact ⟨file, hfile, S, hS, m, hm, by rw [e]; rfl⟩
    · rintro ⟨file, hfile, S, hS, m, hm, e⟩
      exact ⟨(methodPath S m, methodOperation S m),
        (mem_filesOperations _ _).2 ⟨file, hfile, S, hS, m, hm, rfl⟩, e.symm⟩

/-- The path map of the document of the end-to-end scenario has the single key
`/twirp/Docs/Get`. -/
theorem ToOpenAPI_paths_witness :
    ToOpenAPI "docs" "0.0.0" articleDoc (NewSchemaGenerator articleDoc)
      = .ok (articleAPI "docs" "0.0.0") ∧
    ((filesOperations articleDoc.Files).map Prod.fst).Nodup ∧
    ∀ k, k ∈ mapKeys (articleAPI "docs" "0.0.0").Paths ↔
      ∃ file ∈ articleDoc.Files, ∃ S ∈ file.Services, ∃ m ∈ S.Methods,
        k = "/twirp/" ++ S.FullName ++ "/" ++ m.Name :=
  have hnd : ((filesOperations articleDoc.Files).map Prod.fst).Nodup := by
    simp [filesOperations, servicesOperations, articleDoc]
  ⟨ToOpenAPI_articleDoc "docs" "0.0.0", hnd,
    (ToOpenAPI_paths "docs" "0.0.0" articleDoc (NewSchemaGenerator articleDoc) _
      (ToOpenAPI_articleDoc "docs" "0.0.0") hnd).2⟩

/-! ## Failures of `ToOpenAPI` -/

theorem mem_allEnums (files : List File) (e : Enum) :
    e ∈ allEnums files ↔ ∃ file ∈ files, e ∈ file.Enums := by
  induction files with
  | nil => simp [allEnums]
  | cons f rest ih => simp [allEnums, ih]

/-- A first failure is the wrapped error of `MessageSchema` on a message
without custom field function. -/
theorem firstFailure_some (sg : SchemaGenerator) (messages : List Message) (e : GenError)
    (h : firstFailure sg messages = some e) :
    ∃ m ∈ messages, mapGet sg.CustomFields m.FullName = none ∧
      ∃ e', MessageSchema sg m.FullName = .error e' ∧
        e = .failedToGenerateSchema m.FullName e' := by
  induction messages with
  | nil => simp [firstFailure] at h
  | cons m rest ih =>
    rw [firstFailure] at h
    cases hc : mapGet sg.CustomFields m.FullName with
    | some c =>
      simp only [hc] at h
      obtain ⟨m', hm', h'⟩ := ih h
      exact ⟨m', List.mem_cons_of_mem _ hm', h'⟩
    | none =>
      simp only [hc] at h
      cases hs : MessageSchema sg m.FullName with
      | error e' =>
        simp only [hs, Option.some.injEq] at h
        exact ⟨m, List.mem_cons_self _ _, hc, e', hs, h.symm⟩
      | ok v =>
        simp only [hs] at h
        obtain ⟨m', hm', h'⟩ := ih h
        exact ⟨m', List.mem_cons_of_mem _ hm', h'⟩

/-- The first failure is that of the first message without custom field
function on which `MessageSchema` fails. -/
theorem firstFailure_first (sg : SchemaGenerator) (pre : List Message) (m : Message)
    (post : List Message) (e : GenError)
    (hpre : ∀ m' ∈ pre, mapGet sg.CustomFields m'.FullName ≠ none ∨
      ∃ s, MessageSchema sg m'.FullName = .ok s)
    (hc : mapGet sg.CustomFields m.FullName = none)
    (he : MessageSchema sg m.FullName = .error e) :
    firstFailure sg (pre ++ m :: post) = some (.failedToGenerateSchema m.FullName e) := by
  induction pre with
  | nil => simp [firstFailure, hc, he]
  | cons m' rest ih =>
    have ih' := ih (fun x hx => hpre x (List.mem_cons_of_mem _ hx))
    rw [List.cons_append, firstFailure]
    cases hc' : mapGet sg.CustomFields m'.FullName with
    | some c => exact ih'
    | none =>
      rcases hpre m' (List.mem_cons_self _ _) with h | ⟨v, hv⟩
      · exact absurd hc' h
      · simp only [hv]
        exact ih'

/-- There is a first failure when `MessageSchema` fails on a message without
custom field function. -/
theorem firstFailure_of_mem (sg : SchemaGenerator) (messages : List Message) (m : Message)
    (hm : m ∈ messages) (hc : mapGet sg.CustomFields m.FullName = none)
    (he : ∃ e, MessageSchema sg m.FullName = .error e) :
    ∃ e, firstFailure sg messages = some e := by
  induction messages with
  | nil => simp at hm
  | cons m' rest ih =>
    rw [firstFailure]
    rcases List.mem_cons.1 hm with e | hmem
    · subst e
      obtain ⟨e, he⟩ := he
      exact ⟨.failedToGenerateSchema m.FullName e, by simp [hc, he]⟩
    · cases mapGet sg.CustomFields m'.FullName with
      | some c => exact ih hmem
      | none =>
        cases MessageSchema sg m'.FullName with
        | error e' => exact ⟨_, rfl⟩
        | ok v => exact ih hmem

/-- On the document whose only method uses the undeclared type `Missing`,
`ToOpenAPI` succeeds: the request body of the operation is the reference
`#/components/schemas/Missing` and the schema registry has no key `Missing`. -/
theorem missing_type_operation_succeeds :
    ∃ out : T,
      ToOpenAPI "docs" "0.0.0" missingDoc (NewSchemaGenerator missingDoc) = .ok out ∧
      (∃ (op : Operation) (request : RequestBody),
        mapGet out.Paths "/twirp/Docs/Get" = some { Post := some op } ∧
        op.RequestBody = some { Value := some request } ∧
        mapGet request.Content "application/json"
          = some { Schema := some (SchemaRef.mk "#/components/schemas/Missing" none) }) ∧
      "Missing" ∉ mapKeys out.Components.Schemas := by
  refine ⟨{ OpenAPI := "3.0.0"
            Info := some { Title := "docs API", Version := "0.0.0" }
            Components :=
              { SecuritySchemes := [("bearer", { Value := some NewJWTSecurityScheme })] }
            Tags := [{ Name := "Docs", Description := "" }]
            Paths := [("/twirp/Docs/Get",
              { Post := some (methodOperation { Name := "Docs", FullName := "Docs" }
                  { Name := "Get", RequestType := "Missing", ResponseType := "Missing" }) })] },
    ?_, ?_, ?_⟩
  · simp [ToOpenAPI, ToOpenAPI.files, ToOpenAPI.services, ToOpenAPI.methods,
      ToOpenAPI.messages, ToOpenAPI.enums, createOperation, missingDoc, NewSchemaGenerator,
      mapGet, mapSet, T.AddOperation, PathItem.SetOperation, Operation.AddResponse200,
      NewResponses, RequestBody.WithJSONSchemaRef, Response.WithJSONSchemaRef,
      NewContentWithJSONSchemaRef, schemaRef, NewSchemaRef, Authenticate, MethodPost,
      methodOperation, requireBearer]
  · refine ⟨methodOperation { Name := "Docs", FullName := "Docs" }
        { Name := "Get", RequestType := "Missing", ResponseType := "Missing" },
      { Content := NewContentWithJSONSchemaRef (schemaRef "Missing") },
      by simp [mapGet], rfl, ?_⟩
    simp [NewContentWithJSONSchemaRef, schemaRef, NewSchemaRef, mapGet]
  · simp [mapKeys]

/-- C11 (amended): when `ToOpenAPI` succeeds, every entry of the path map is
the path of a method of the document with the operation of that method under
POST, whose request body and response body are the references to
"#/components/schemas/" followed by the RequestType and the ResponseType of
the method, registered or not; the keys of the schema registry are the
FullNames of the messages without custom field function and of the enums of
the document, so such a reference names a key exactly when the type is one of
those; and when `ToOpenAPI` fails, the error is that of `MessageSchema` on a
message, never one of an operation. -/
theorem ToOpenAPI_operation_references (application version : String) (d : Doc)
    (sg : SchemaGenerator) :
    (∀ out, ToOpenAPI application version d sg = .ok out →
      (∀ p ∈ out.Paths, ∃ file ∈ d.Files, ∃ S ∈ file.Services, ∃ m ∈ S.Methods,
        ∃ (op : Operation) (request : RequestBody) (response : Response),
          p = ("/twirp/" ++ S.FullName ++ "/" ++ m.Name, ({ Post := some op } : PathItem)) ∧
          op.RequestBody = some { Value := some request } ∧
          mapGet request.Content "application/json" = some
            { Schema := some (SchemaRef.mk ("#/components/schemas/" ++ m.RequestType) none) } ∧
          op.Responses.bind (fun responses => mapGet responses "200")
            = some { Value := some response } ∧
          mapGet response.Content "application/json" = some
            { Schema := some (SchemaRef.mk ("#/components/schemas/" ++ m.ResponseType) none) }) ∧
      (∀ name, name ∈ mapKeys out.Components.Schemas ↔
        (∃ file ∈ d.Files, ∃ m ∈ file.Messages,
          mapGet sg.CustomFields m.FullName = none ∧ m.FullName = name) ∨
        ∃ file ∈ d.Files, ∃ e ∈ file.Enums, e.FullName = name)) ∧
    (∀ err, ToOpenAPI application version d sg = .error err →
      ∃ file ∈ d.Files, ∃ m ∈ file.Messages, ∃ e,
        MessageSchema sg m.FullName = .error e ∧
        err = .failedToGenerateSchema m.FullName e) := by
  constructor
  · intro out hok
    obtain ⟨hp, hk, -⟩ := ToOpenAPI_ok application version d sg out hok
    constructor
    · intro p hmem
      rw [hp] at hmem
      obtain ⟨o, ho, e⟩ := addOperations_entries (filesOperations d.Files)
        (filesOperations d.Files) [] (fun o ho => ho) (by simp) p hmem
      obtain ⟨file, hfile, S, hS, m, hm, e'⟩ := (mem_filesOperations _ _).1 ho
      obtain ⟨-, -, request, response, h1, h2, h3, h4⟩ := methodOperation_bodies S m
      refine ⟨file, hfile, S, hS, m, hm, methodOperation S m, request, response, ?_,
        h1, h2, h3, h4⟩
      rw [e, e']
      rfl
    · intro name
      rw [hk name]
      constructor
      · rintro (⟨m, hm, hc, hn⟩ | ⟨e, he, hn⟩)
        · obtain ⟨file, hfile, hmem⟩ := (mem_allMessages _ _).1 hm
          exact Or.inl ⟨file, hfile, m, hmem, hc, hn⟩
        · obtain ⟨file, hfile, hmem⟩ := (mem_allEnums _ _).1 he
          exact Or.inr ⟨file, hfile, e, hmem, hn⟩
      · rintro (⟨file, hfile, m, hmem, hc, hn⟩ | ⟨file, hfile, e, hmem, hn⟩)
        · exact Or.inl ⟨m, (mem_allMessages _ _).2 ⟨file, hfile, hmem⟩, hc, hn⟩
        · exact Or.inr ⟨e, (mem_allEnums _ _).2 ⟨file, hfile, hmem⟩, hn⟩
  · intro err herr
    obtain ⟨m, hm, -, e, he, heq⟩ := firstFailure_some sg _ err
      ((ToOpenAPI_error_iff application version d sg err).1 herr)
    obtain ⟨file, hfile, hmem⟩ := (mem_allMessages _ _).1 hm
    exact ⟨file, hfile, m, hmem, e, he, heq⟩

/-- C13: with a generator that has a custom field function for the enum
`example.Color`, `ToOpenAPI` succeeds on the document that declares this enum
and registers a schema under `example.Color`. -/
theorem ToOpenAPI_registers_overridden_enum :
    (∃ custom, mapGet colorGenerator.CustomFields "example.Color" = some custom) ∧
    (∃ file ∈ colorDoc.Files, ∃ e ∈ file.Enums, e.FullName = "example.Color") ∧
    ∃ out : T, ToOpenAPI "docs" "0.0.0" colorDoc colorGenerator = .ok out ∧
      mapKeys out.Components.Schemas = ["example.Color"] := by
  refine ⟨⟨colorField, by simp [colorGenerator, mapGet]⟩, ?_, ?_⟩
  · simp [colorDoc]
  · refine ⟨{ OpenAPI := "3.0.0"
              Info := some { Title := "docs API", Version := "0.0.0" }
              Components :=
                { Schemas := [("example.Color", SchemaOf.NewRef
                    { Type_ := some ["string"], Enum := ["RED"] })]
                  SecuritySchemes := [("bearer", { Value := some NewJWTSecurityScheme })] } },
      ?_, ?_⟩
    · simp [ToOpenAPI, ToOpenAPI.files, ToOpenAPI.services, ToOpenAPI.messages,
        ToOpenAPI.enums, EnumSchema, NewSchema, colorDoc, mapSet, T.setSchema, schemaID,
        TypeString]
    · simp [mapKeys]

/-- C20: `ToOpenAPI` returns an error exactly when `MessageSchema` fails on a
message of the document without custom field function; for the first such
message, in file order and then declaration order, the error is the error of
`MessageSchema` on that message wrapped by `failed to generate schema for`,
and its text contains the FullName of the message; every error of `ToOpenAPI`
is of this kind, so no operation and no enum schema makes it fail. -/
theorem ToOpenAPI_fails_iff (application version : String) (d : Doc) (sg : SchemaGenerator) :
    ((∃ err, ToOpenAPI application version d sg = .error err) ↔
      ∃ file ∈ d.Files, ∃ m ∈ file.Messages, mapGet sg.CustomFields m.FullName = none ∧
        ∃ e, MessageSchema sg m.FullName = .error e) ∧
    (∀ pre m post e, allMessages d.Files = pre ++ m :: post →
      (∀ m' ∈ pre, mapGet sg.CustomFields m'.FullName ≠ none ∨
        ∃ s, MessageSchema sg m'.FullName = .ok s) →
      mapGet sg.CustomFields m.FullName = none →
      MessageSchema sg m.FullName = .error e →
      ToOpenAPI application version d sg = .error (.failedToGenerateSchema m.FullName e) ∧
      ∀ quote : String → String, ∃ before after : String,
        (GenError.failedToGenerateSchema m.FullName e).Error quote
          = before ++ m.FullName ++ after) ∧
    (∀ err, ToOpenAPI application version d sg = .error err →
      ∃ file ∈ d.Files, ∃ m ∈ file.Messages, ∃ e,
        err = .failedToGenerateSchema m.FullName e) := by
  refine ⟨?_, ?_, ?_⟩
  · constructor
    · rintro ⟨err, herr⟩
      obtain ⟨m, hm, hc, e, he, -⟩ := firstFailure_some sg _ err
        ((ToOpenAPI_error_iff application version d sg err).1 herr)
      obtain ⟨file, hfile, hmem⟩ := (mem_allMessages _ _).1 hm
      exact ⟨file, hfile, m, hmem, hc, e, he⟩
    · rintro ⟨file, hfile, m, hmem, hc, he⟩
      obtain ⟨err, herr⟩ := firstFailure_of_mem sg (allMessages d.Files) m
        ((mem_allMessages _ _).2 ⟨file, hfile, hmem⟩) hc he
      exact ⟨err, (ToOpenAPI_error_iff application version d sg err).2 herr⟩
  · intro pre m post e hsplit hpre hc he
    constructor
    · rw [ToOpenAPI_error_iff, hsplit]
      exact firstFailure_first sg pre m post e hpre hc he
    · intro quote
      exact ⟨"failed to generate schema for ", ": " ++ e.Error quote, by
        simp [GenError.Error, String.append_assoc]⟩
  · intro err herr
    obtain ⟨m, hm, -, e, -, heq⟩ := firstFailure_some sg _ err
      ((ToOpenAPI_error_iff application version d sg err).1 herr)
    obtain ⟨file, hfile, hmem⟩ := (mem_allMessages _ _).1 hm
    exact ⟨file, hfile, m, hmem, e, heq⟩

/-- On the document with the messages `Article` and `Post`, `ToOpenAPI` fails
on `Post`, whose field `author` has an undeclared type, after `Article` has
passed. -/
theorem ToOpenAPI_fails_iff_witness :
    ToOpenAPI "docs" "0.0.0" postDoc (NewSchemaGenerator postDoc)
      = .error (.failedToGenerateSchema "example.Post"
          (.failedToGenerate "author" "example.Author")) :=
  ((ToOpenAPI_fails_iff "docs" "0.0.0" postDoc (NewSchemaGenerator postDoc)).2.1
    [article] post [] (.failedToGenerate "author" "example.Author")
    (by simp [postDoc, allMessages])
    (by
      intro m' hm'
      rw [List.mem_singleton] at hm'
      subst hm'
      exact Or.inr ⟨SchemaOf.NewRef articleSchema, by
        simp [MessageSchema, MessageSchema.fields, fieldSchema, NewSchemaGenerator, postDoc,
          findMessage, findMessageIn, article, post, NewSchema, mapGet, mapSet, scalarTypeMap,
          articleSchema, titleSchema, TypeString]⟩)
    (by simp [NewSchemaGenerator, mapGet, post])
    (by
      simp [MessageSchema, MessageSchema.fields, fieldSchema, NewSchemaGenerator, postDoc,
        findMessage, findMessageIn, findEnum, findEnumIn, article, post, NewSchema, mapGet,
        scalarTypeMap])).1

/-! ## References inside the registered schemas -/

/-- A reference that occurs in a schema value occurs in its Items, in one of
its properties or in its AdditionalProperties schema. -/
theorem refers_newRef (schema : Schema) (x : String)
    (h : (SchemaOf.NewRef schema).Refers x) :
    (∃ item, schema.Items = some item ∧ item.Refers x) ∨
    (∃ k p, (k, p) ∈ schema.Properties ∧ p.Refers x) ∨
    (∃ a, schema.AdditionalProperties.Schema = some a ∧ a.Refers x) := by
  generalize hr : SchemaOf.NewRef schema = r at h
  cases h with
  | here _ hne =>
    rw [← hr] at hne
    exact absurd rfl hne
  | items _ schema' item _ hv hi hx =>
    rw [← hr] at hv
    simp only [SchemaOf.NewRef, SchemaRef.Value, Option.some.injEq] at hv
    subst hv
    exact Or.inl ⟨item, hi, hx⟩
  | property _ schema' k p _ hv hp hx =>
    rw [← hr] at hv
    simp only [SchemaOf.NewRef, SchemaRef.Value, Option.some.injEq] at hv
    subst hv
    exact Or.inr (Or.inl ⟨k, p, hp, hx⟩)
  | additional _ schema' a _ hv ha hx =>
    rw [← hr] at hv
    simp only [SchemaOf.NewRef, SchemaRef.Value, Option.some.injEq] at hv
    subst hv
    exact Or.inr (Or.inr ⟨a, ha, hx⟩)

/-- The only reference that occurs in a reference without value is its Ref. -/
theorem refers_schemaRef (typeName x : String) (h : (schemaRef typeName).Refers x) :
    x = "#/components/schemas/" ++ typeName := by
  generalize hr : schemaRef typeName = r at h
  cases h with
  | here _ hne => rw [← hr]; rfl
  | items _ schema' item _ hv hi hx =>
    rw [← hr] at hv
    simp [schemaRef, NewSchemaRef, SchemaRef.Value] at hv
  | property _ schema' k p _ hv hp hx =>
    rw [← hr] at hv
    simp [schemaRef, NewSchemaRef, SchemaRef.Value] at hv
  | additional _ schema' a _ hv ha hx =>
    rw [← hr] at hv
    simp [schemaRef, NewSchemaRef, SchemaRef.Value] at hv

/-- No reference occurs in a schema value without Items, properties and
AdditionalProperties schema. -/
theorem refers_leaf (schema : Schema) (x : String) (hi : schema.Items = none)
    (hp : schema.Properties = []) (ha : schema.AdditionalProperties.Schema = none) :
    ¬ (SchemaOf.NewRef schema).Refers x := by
  intro h
  rcases refers_newRef schema x h with ⟨item, h', -⟩ | ⟨k, p, h', -⟩ | ⟨a, h', -⟩
  · rw [hi] at h'; cases h'
  · rw [hp] at h'; cases h'
  · rw [ha] at h'; cases h'

/-- References of a plain field: when the custom field functions make no
references, every reference in the schema of a non-repeated, non-map field is
resolved. -/
theorem fieldSchema_refers_plain (sg : SchemaGenerator)
    (hcustom : ∀ k custom f r, mapGet sg.CustomFields k = some custom → custom f = .ok r →
      ∀ x, ¬ r.Refers x)
    (f : MessageField) (hr : f.IsRepeated = false) (hm : f.IsMap = false) (r : SchemaRef)
    (h : fieldSchema sg f = .ok r) (x : String) (hx : r.Refers x) : Resolved sg x := by
  cases hc : mapGet sg.CustomFields f.FullType with
  | some custom =>
    rw [fieldSchema_custom sg f custom hc] at h
    exact absurd hx (hcustom _ custom f r hc h x)
  | none =>
    rw [fieldSchema_plain sg f hc hr hm] at h
    cases hs : mapGet scalarTypeMap f.FullType with
    | some scalar =>
      simp only [hs, Except.ok.injEq] at h
      subst h
      exact absurd hx (refers_leaf _ x rfl rfl rfl)
    | none =>
      simp only [hs] at h
      by_cases he : (findEnum sg.doc.Files f.FullType).2 = true
      · simp only [he, if_true, Except.ok.injEq] at h
        subst h
        exact ⟨f.FullType, refers_schemaRef _ _ hx, hc, Or.inl he⟩
      · by_cases hn : (findMessage sg.doc.Files f.FullType).Name ≠ ""
        · rw [if_neg he, if_pos hn] at h
          simp only [Except.ok.injEq] at h
          subst h
          exact ⟨f.FullType, refers_schemaRef _ _ hx, hc, Or.inr hn⟩
        · simp [he, hn] at h

/-- References of a field: when the custom field functions make no references, every
reference in the schema of a field is resolved. -/
theorem fieldSchema_refers (sg : SchemaGenerator)
    (hcustom : ∀ k custom f r, mapGet sg.CustomFields k = some custom → custom f = .ok r →
      ∀ x, ¬ r.Refers x)
    (f : MessageField) (r : SchemaRef)
    (h : fieldSchema sg f = .ok r) (x : String) (hx : r.Refers x) : Resolved sg x := by
  have single : ∀ (g : MessageField), g.IsRepeated = false → ∀ r', fieldSchema sg g = .ok r' →
      r'.Refers x → Resolved sg x := by
    intro g hgr r' hg hx'
    cases hgm : g.IsMap with
    | false => exact fieldSchema_refers_plain sg hcustom g hgr hgm r' hg x hx'
    | true =>
      cases hc : mapGet sg.CustomFields g.FullType with
      | some custom =>
        rw [fieldSchema_custom sg g custom hc] at hg
        exact absurd hx' (hcustom _ custom g r' hc hg x)
      | none =>
        rw [fieldSchema_map sg g hc hgr hgm] at hg
        cases hk : mapGet scalarTypeMap g.MapKey with
        | none => simp [hk] at hg
        | some t =>
          simp only [hk] at hg
          cases hi : fieldSchema sg
              { g with Description := "", IsMap := false, FullType := g.MapValue } with
          | error e => simp [hi] at hg
          | ok item =>
            simp only [hi, Except.ok.injEq] at hg
            subst hg
            rcases refers_newRef _ x hx' with ⟨i, h', -⟩ | ⟨k, p, h', -⟩ | ⟨a, h', ha⟩
            · cases h'
            · cases h'
            · simp only [Option.some.injEq] at h'
              subst h'
              exact fieldSchema_refers_plain sg hcustom
                { g with Description := "", IsMap := false, FullType := g.MapValue }
                hgr rfl _ hi x ha
  cases hfr : f.IsRepeated with
  | false => exact single f hfr r h hx
  | true =>
    cases hc : mapGet sg.CustomFields f.FullType with
    | some custom =>
      rw [fieldSchema_custom sg f custom hc] at h
      exact absurd hx (hcustom _ custom f r hc h x)
    | none =>
      rw [fieldSchema_repeated sg f hc hfr] at h
      cases hi : fieldSchema sg { f with Description := "", IsRepeated := false } with
      | error e => simp [hi] at h
      | ok item =>
        simp only [hi, Except.ok.injEq] at h
        subst h
        rcases refers_newRef _ x hx with ⟨i, h', hi'⟩ | ⟨k, p, h', -⟩ | ⟨a, h', -⟩
        · simp only [Option.some.injEq] at h'
          subst h'
          exact single _ rfl _ hi hi'
        · cases h'
        · cases h'

/-- The field loop leaves Items and AdditionalProperties alone, and every
property it adds is the schema of a field. -/
theorem MessageSchema.fields_entries (sg : SchemaGenerator) (fields : List MessageField) :
    ∀ (schema out : Schema), MessageSchema.fields sg fields schema = .ok out →
      out.Items = schema.Items ∧ out.AdditionalProperties = schema.AdditionalProperties ∧
      ∀ p ∈ out.Properties, p ∈ schema.Properties ∨
        ∃ f ∈ fields, fieldSchema sg f = .ok p.2 := by
  induction fields with
  | nil =>
    intro schema out h
    simp only [MessageSchema.fields, Except.ok.injEq] at h
    subst h
    simp
  | cons f rest ih =>
    intro schema out h
    cases hf : fieldSchema sg f with
    | error e => simp [MessageSchema.fields, hf] at h
    | ok fs =>
      rw [MessageSchema.fields_cons sg f rest schema fs hf] at h
      obtain ⟨h1, h2, h3⟩ := ih _ _ h
      refine ⟨h1, h2, ?_⟩
      intro p hp
      rcases h3 p hp with hp | ⟨g, hg, hgs⟩
      · rcases mem_mapSet _ _ _ p hp with e | hold
        · exact Or.inr ⟨f, List.mem_cons_self _ _, by rw [hf, e]⟩
        · exact Or.inl hold
      · exact Or.inr ⟨g, List.mem_cons_of_mem _ hg, hgs⟩

/-- References of a message schema: when the custom field functions make no references,
every reference in the schema of a message is resolved. -/
theorem MessageSchema_refers (sg : SchemaGenerator)
    (hcustom : ∀ k custom f r, mapGet sg.CustomFields k = some custom → custom f = .ok r →
      ∀ x, ¬ r.Refers x)
    (typeName : String) (s : SchemaRef) (h : MessageSchema sg typeName = .ok s)
    (x : String) (hx : s.Refers x) : Resolved sg x := by
  obtain ⟨-, out, hs, hl⟩ := MessageSchema_ok sg typeName s h
  obtain ⟨hi, ha, hp⟩ := MessageSchema.fields_entries sg _ _ out hl
  subst hs
  rcases refers_newRef out x hx with ⟨item, h', -⟩ | ⟨k, p, h', hpx⟩ | ⟨a, h', -⟩
  · rw [hi] at h'
    cases h'
  · rcases hp (k, p) h' with hnil | ⟨f, -, hf⟩
    · cases hnil
    · exact fieldSchema_refers sg hcustom f p hf x hpx
  · rw [ha] at h'
    cases h'

/-- No reference occurs in the schema of an enum. -/
theorem EnumSchema_refers (sg : SchemaGenerator) (e : Enum) (s : SchemaRef)
    (h : EnumSchema sg e = .ok s) (x : String) : ¬ s.Refers x := by
  rw [EnumSchema_eq, Except.ok.injEq] at h
  subst h
  exact refers_leaf _ x rfl rfl rfl

/-- The custom field function of the default generator makes no references. -/
theorem NewSchemaGenerator_custom (doc : Doc) (k : String) (custom : CustomFieldFunc)
    (f : MessageField) (r : SchemaRef)
    (hc : mapGet (NewSchemaGenerator doc).CustomFields k = some custom)
    (h : custom f = .ok r) (x : String) : ¬ r.Refers x := by
  have hcustom : custom = GoogleTimestamp := by
    by_cases hk : "google.protobuf.Timestamp" = k
    · simp only [NewSchemaGenerator, mapGet, hk, if_true, Option.some.injEq] at hc
      exact hc.symm
    · simp [NewSchemaGenerator, mapGet, hk] at hc
  subst hcustom
  simp only [GoogleTimestamp, NewSchema, Except.ok.injEq] at h
  subst h
  exact refers_leaf _ x rfl rfl rfl

/-- A message with a Name that `findMessage` returns is a message of the
document and bears the name that was looked up. -/
theorem findMessage_mem (files : List File) (name : String)
    (h : (findMessage files name).Name ≠ "") :
    ∃ m ∈ allMessages files, m.FullName = name := by
  rw [findMessage_eq_all] at h
  have hin : ∀ (ms : List Message) (m : Message), findMessageIn ms name = some m →
      m ∈ ms ∧ m.FullName = name := by
    intro ms
    induction ms with
    | nil => intro m hm; simp [findMessageIn] at hm
    | cons m' rest ih =>
      intro m hm
      by_cases hn : m'.FullName = name
      · simp only [findMessageIn, hn, if_true, Option.some.injEq] at hm
        subst hm
        exact ⟨List.mem_cons_self _ _, hn⟩
      · simp only [findMessageIn, hn, if_false] at hm
        obtain ⟨h1, h2⟩ := ih m hm
        exact ⟨List.mem_cons_of_mem _ h1, h2⟩
  cases hf : findMessageIn (allMessages files) name with
  | none =>
    rw [hf] at h
    exact absurd rfl h
  | some m =>
    obtain ⟨h1, h2⟩ := hin _ m hf
    exact ⟨m, h1, h2⟩

/-- C12: with the default generator for the document, when `ToOpenAPI`
succeeds, every reference that occurs in a registered schema (as a property,
as Items or as AdditionalProperties schema, at any depth) is
"#/components/schemas/" followed by a key of the schema registry of the same
output. -/
theorem ToOpenAPI_field_references (application version : String) (d : Doc) (out : T)
    (hok : ToOpenAPI application version d (NewSchemaGenerator d) = .ok out) :
    ∀ k s, (k, s) ∈ out.Components.Schemas → ∀ x, s.Refers x →
      ∃ name, x = "#/components/schemas/" ++ name ∧
        name ∈ mapKeys out.Components.Schemas := by
  intro k s hmem x hx
  obtain ⟨-, hkeys, hentries⟩ :=
    ToOpenAPI_ok application version d (NewSchemaGenerator d) out hok
  rcases hentries (k, s) hmem with ⟨m, -, -, hs⟩ | ⟨e, -, hs⟩
  · obtain ⟨name, hname, hc, hfound⟩ :=
      MessageSchema_refers (NewSchemaGenerator d) (NewSchemaGenerator_custom d) _ s hs x hx
    refine ⟨name, hname, (hkeys name).2 ?_⟩
    rcases hfound with he | hm
    · obtain ⟨file, hfile, e, he', hn⟩ := (findEnum_snd_iff _ _).1 he
      exact Or.inr ⟨e, (mem_allEnums _ _).2 ⟨file, hfile, he'⟩, hn⟩
    · obtain ⟨m', hm', hn⟩ := findMessage_mem _ _ hm
      exact Or.inl ⟨m', hm', by rw [hn]; exact hc, hn⟩
  · exact absurd hx (EnumSchema_refers _ e s hs x)

/-- On the document with the messages `Article` and `Feed`, the schema of
`Feed` refers to `#/components/schemas/Article`, and every reference in a
registered schema names a registered key. -/
theorem ToOpenAPI_field_references_witness :
    ToOpenAPI "docs" "0.0.0" feedDoc (NewSchemaGenerator feedDoc) = .ok feedAPI ∧
    (SchemaOf.NewRef feedSchema).Refers "#/components/schemas/Article" ∧
    ∀ k s, (k, s) ∈ feedAPI.Components.Schemas → ∀ x, s.Refers x →
      ∃ name, x = "#/components/schemas/" ++ name ∧
        name ∈ mapKeys feedAPI.Components.Schemas :=
  have hok : ToOpenAPI "docs" "0.0.0" feedDoc (NewSchemaGenerator feedDoc) = .ok feedAPI := by
    simp [ToOpenAPI, ToOpenAPI.files, ToOpenAPI.services, ToOpenAPI.messages,
      ToOpenAPI.enums, feedDoc, feed, article, NewSchemaGenerator, mapGet, mapSet,
      MessageSchema, MessageSchema.fields, fieldSchema, findMessage, findMessageIn, findEnum,
      findEnumIn, NewSchema, scalarTypeMap, T.setSchema, schemaRef, NewSchemaRef, schemaID,
      articleSchema, titleSchema, feedSchema, feedAPI, SchemaOf.NewRef, TypeString, TypeArray]
  ⟨hok,
    .property _ feedSchema "items" _ _ rfl (List.mem_cons_self _ _)
      (.items _ _ (SchemaRef.mk "#/components/schemas/Article" none) _ rfl rfl
        (.here (SchemaRef.mk "#/components/schemas/Article" none) (by decide))),
    ToOpenAPI_field_references "docs" "0.0.0" feedDoc feedAPI hok⟩

/-! ## Field documentation (`dump.go`) -/

/-- The flag IsRequired of a field that `readMessage` reads is the prefix test
on the cleaned trailing comment. -/
theorem readMessage.field_IsRequired (f : ProtoField) :
    (readMessage.field f).IsRequired = HasPrefix (whitewash f.Trailing) "required" := by
  unfold readMessage.field
  cases f.IsMap <;> rfl

/-- The Description of a field that `readMessage` reads is the cleaned
concatenation of the leading comment, a space, and the cleaned trailing
comment without the prefix `required`. -/
theorem readMessage.field_Description (f : ProtoField) :
    (readMessage.field f).Description =
      whitewash (f.Leading ++ " " ++
        (if HasPrefix (whitewash f.Trailing) "required" = true
          then TrimPrefix (whitewash f.Trailing) "required" else whitewash f.Trailing)) := by
  unfold readMessage.field
  cases f.IsMap <;> rfl

/-- The field `amount`, with the trailing comment `required, must be positive`
and no leading comment, does not get the Description `must be positive`. -/
theorem required_comma_not_stripped :
    amountField.Leading = "" ∧ amountField.Trailing = "required, must be positive" ∧
    (readMessage.field amountField).IsRequired = true ∧
    (readMessage.field amountField).Description ≠ "must be positive" := by
  decide

/-- C17 (amended): for a field with the trailing comment
`required, must be positive` and an empty leading comment, the field that
`readMessage` reads has IsRequired set and the Description
`, must be positive`: the token `required` and the white space around the
remainder are stripped, the comma after the token is kept. -/
theorem readMessage_required_description (f : ProtoField) (hl : f.Leading = "")
    (ht : f.Trailing = "required, must be positive") :
    (readMessage.field f).IsRequired = true ∧
    (readMessage.field f).Description = ", must be positive" := by
  rw [readMessage.field_IsRequired, readMessage.field_Description, hl, ht]
  decide

/-- The field `amount` is required and described by `, must be positive`. -/
theorem readMessage_required_description_witness :
    amountField.Leading = "" ∧ amountField.Trailing = "required, must be positive" ∧
    (readMessage.field amountField).IsRequired = true ∧
    (readMessage.field amountField).Description = ", must be positive" :=
  ⟨rfl, rfl, readMessage_required_description amountField rfl rfl⟩

/-- C18: for every field, `readMessage` sets IsRequired exactly when the
cleaned trailing comment starts with the characters of `required`; the leading
comment has no part in it, and neither `required` in the leading comment
alone, nor `required` later in the trailing comment, nor `Required` with a
capital sets the flag. -/
theorem readMessage_required_iff (f : ProtoField) :
    ((readMessage.field f).IsRequired = true ↔
      "required".data <+: (whitewash f.Trailing).data) ∧
    (∀ L, (readMessage.field { f with Leading := L }).IsRequired
      = (readMessage.field f).IsRequired) ∧
    (readMessage.field { f with Leading := "required", Trailing := "" }).IsRequired = false ∧
    (readMessage.field { f with Trailing := "this is required" }).IsRequired = false ∧
    (readMessage.field { f with Trailing := "Required" }).IsRequired = false ∧
    (readMessage.field { f with Trailing := "REQUIRED" }).IsRequired = false := by
  refine ⟨?_, ?_, ?_, ?_, ?_, ?_⟩
  · rw [readMessage.field_IsRequired, HasPrefix, List.isPrefixOf_iff_prefix]
  · intro L
    rw [readMessage.field_IsRequired, readMessage.field_IsRequired]
  all_goals
    rw [readMessage.field_IsRequired]
    simp only
    decide

/-! ## Cleaning of comments (`whitewash`) -/

theorem isSpace_false (c : Char) (h : isSpace c = false) : c ≠ '\n' ∧ c ≠ ' ' := by
  constructor
  · rintro rfl
    exact absurd h (by decide)
  · rintro rfl
    exact absurd h (by decide)

/-- The result of `strings.TrimSpace` has no white space at either end. -/
theorem trimSpace_noOuterSpace (l : List Char) :
    NoOuterSpace ((l.dropWhile isSpace).rdropWhile isSpace) := by
  constructor
  · intro c hc
    have hpre : (l.dropWhile isSpace).rdropWhile isSpace <+: l.dropWhile isSpace :=
      List.rdropWhile_prefix isSpace _
    obtain ⟨t, ht⟩ := hpre
    have hnot := List.head?_dropWhile_not isSpace l
    cases hu : (l.dropWhile isSpace).rdropWhile isSpace with
    | nil => rw [hu] at hc; cases hc
    | cons a u =>
      rw [hu] at hc ht
      simp only [List.head?_cons, Option.some.injEq] at hc
      rw [← ht] at hnot
      simpa [hc] using hnot
  · intro c hc
    cases hu : (l.dropWhile isSpace).rdropWhile isSpace with
    | nil => rw [hu] at hc; cases hc
    | cons a u =>
      have hne : (l.dropWhile isSpace).rdropWhile isSpace ≠ [] := by rw [hu]; simp
      have hlast := List.rdropWhile_last_not isSpace (l.dropWhile isSpace) hne
      rw [List.getLast?_eq_getLast _ hne, Option.some.injEq] at hc
      rw [hc] at hlast
      simpa using hlast

/-- On characters without white space at either end, `strings.TrimSpace`
changes nothing. -/
theorem trimSpace_of_noOuterSpace (l : List Char) (h : NoOuterSpace l) :
    (l.dropWhile isSpace).rdropWhile isSpace = l := by
  have h1 : l.dropWhile isSpace = l := by
    rw [List.dropWhile_eq_self_iff]
    intro hl
    cases l with
    | nil => simp at hl
    | cons a u => simpa using h.1 a rfl
  rw [h1, List.rdropWhile_eq_self_iff]
  intro hl
  have := h.2 _ (List.getLast?_eq_getLast _ hl)
  simpa using this

/-- A character other than a newline, outside a match, is copied. -/
theorem singleNewlineReplace_cons (c : Char) (rest : List Char) (hc : c ≠ '\n') :
    singleNewlineReplace false (c :: rest) = c :: singleNewlineReplace false rest := by
  simp [singleNewlineReplace, hc]

/-- The replacement keeps a last character that is no white space. -/
theorem singleNewlineReplace_getLast (l : List Char) :
    ∀ (inMatch : Bool) (c : Char), l.getLast? = some c → isSpace c = false →
      (singleNewlineReplace inMatch l).getLast? = some c := by
  induction l with
  | nil => intro _ c h; cases h
  | cons a rest ih =>
    intro inMatch c hlast hc
    obtain ⟨hnl, hsp⟩ := isSpace_false c hc
    cases rest with
    | nil =>
      simp only [List.getLast?_singleton, Option.some.injEq] at hlast
      subst hlast
      simp [singleNewlineReplace, hnl, hsp]
    | cons b rest' =>
      rw [List.getLast?_cons_cons] at hlast
      have key : ∀ st, (singleNewlineReplace st (b :: rest')).getLast? = some c :=
        fun st => ih st c hlast hc
      have hne : ∀ st, singleNewlineReplace st (b :: rest') ≠ [] := by
        intro st hnil
        have := key st
        rw [hnil] at this
        cases this
      have hcons : ∀ (x : Char) st,
          (x :: singleNewlineReplace st (b :: rest')).getLast? = some c := by
        intro x st
        cases hs : singleNewlineReplace st (b :: rest') with
        | nil => exact absurd hs (hne st)
        | cons y ys => rw [List.getLast?_cons_cons, ← hs]; exact key st
      rw [singleNewlineReplace]
      split_ifs
      · exact key true
      · exact hcons _ true
      · exact hcons _ false

/-- The replacement keeps the characters free of white space at either end. -/
theorem singleNewlineReplace_noOuterSpace (l : List Char) (h : NoOuterSpace l) :
    NoOuterSpace (singleNewlineReplace false l) := by
  cases l with
  | nil => simpa [singleNewlineReplace] using h
  | cons a rest =>
    have ha : isSpace a = false := h.1 a rfl
    constructor
    · intro c hc
      rw [singleNewlineReplace_cons a rest (isSpace_false a ha).1] at hc
      simp only [List.head?_cons, Option.some.injEq] at hc
      rw [← hc]
      exact ha
    · intro c hc
      have hne : a :: rest ≠ [] := by simp
      have hl := List.getLast?_eq_getLast (a :: rest) hne
      have hsp := h.2 _ hl
      rw [singleNewlineReplace_getLast (a :: rest) false _ hl hsp, Option.some.injEq] at hc
      rw [← hc]
      exact hsp

/-- Without a newline right after a newline in the input, the result of the
replacement has no newline right before a space. -/
theorem singleNewlineReplace_noNewlineSpace (l : List Char) :
    ∀ inMatch : Bool, NoDoubleNewline l → NoNewlineSpace (singleNewlineReplace inMatch l) := by
  induction l with
  | nil => intro _ _; simp [singleNewlineReplace, NoNewlineSpace]
  | cons a rest ih =>
    intro inMatch h
    have hrest : NoDoubleNewline rest := List.Chain'.tail h
    rw [singleNewlineReplace]
    split_ifs with h1 h2
    · exact ih true hrest
    · exact List.Chain'.cons' (ih true hrest) (by
        intro y _
        simp)
    · refine List.Chain'.cons' (ih false hrest) ?_
      intro y hy
      rintro ⟨hnl, hsp⟩
      subst hnl hsp
      cases rest with
      | nil => simp [singleNewlineReplace] at hy
      | cons b rest' =>
        have hb1 : b ≠ '\n' := by
          intro e
          subst e
          exact (List.chain'_cons.1 h).1 ⟨rfl, rfl⟩
        have hb2 : b ≠ ' ' := by
          intro e
          subst e
          exact h2 ⟨rfl, rfl⟩
        rw [singleNewlineReplace_cons b rest' hb1] at hy
        simp only [List.head?_cons, Option.mem_def, Option.some.injEq] at hy
        exact hb2 hy

/-- Without a newline right before a space, the replacement changes nothing. -/
theorem singleNewlineReplace_of_noNewlineSpace (l : List Char) (h : NoNewlineSpace l) :
    singleNewlineReplace false l = l := by
  induction l with
  | nil => simp [singleNewlineReplace]
  | cons a rest ih =>
    have hrest : NoNewlineSpace rest := List.Chain'.tail h
    have hno : ¬ (a = '\n' ∧ rest.head? = some ' ') := by
      rintro ⟨ha, hh⟩
      cases rest with
      | nil => cases hh
      | cons b rest' =>
        simp only [List.head?_cons, Option.some.injEq] at hh
        exact (List.chain'_cons.1 h).1 ⟨ha, hh⟩
    rw [singleNewlineReplace]
    simp only [Bool.false_eq_true, false_and, if_false, hno]
    rw [ih hrest]

/-- The string of a newline, a newline, a space between `a` and `b` is cleaned
to a string that still has a newline right before a space, and cleaning that
string again changes it. -/
theorem whitewash_not_idempotent :
    whitewash "a\n\n b" = "a\n b" ∧
    ¬ NoNewlineSpace (whitewash "a\n\n b").data ∧
    whitewash (whitewash "a\n\n b") ≠ whitewash "a\n\n b" := by
  have h : whitewash "a\n\n b" = "a\n b" := by decide
  refine ⟨h, ?_, by decide⟩
  rw [h]
  show ¬ List.Chain' _ ['a', '\n', ' ', 'b']
  simp

/-- C19 (amended): for every string, the result of `whitewash` has no white
space at either end; when the string has no newline right after a newline,
the result has no newline right before a space and cleaning it again changes
nothing; and cleaning the result again changes nothing whenever the result has
no newline right before a space. -/
theorem whitewash_clean (s : String) :
    NoOuterSpace (whitewash s).data ∧
    (NoDoubleNewline s.data →
      NoNewlineSpace (whitewash s).data ∧ whitewash (whitewash s) = whitewash s) ∧
    (NoNewlineSpace (whitewash s).data → whitewash (whitewash s) = whitewash s) := by
  have houter : NoOuterSpace (whitewash s).data :=
    singleNewlineReplace_noOuterSpace _ (trimSpace_noOuterSpace s.data)
  have hidem : NoNewlineSpace (whitewash s).data → whitewash (whitewash s) = whitewash s := by
    intro h
    have h1 : TrimSpace (whitewash s) = whitewash s := by
      unfold TrimSpace
      rw [trimSpace_of_noOuterSpace _ houter]
    have h2 : whitewash (whitewash s) = ⟨singleNewlineReplace false (TrimSpace (whitewash s)).data⟩ :=
      rfl
    rw [h2, h1, singleNewlineReplace_of_noNewlineSpace _ h]
  refine ⟨houter, ?_, hidem⟩
  intro hd
  have hstart : (TrimSpace s).data <+: s.data.dropWhile isSpace :=
    List.rdropWhile_prefix isSpace _
  have htrim : NoDoubleNewline (TrimSpace s).data :=
    List.Chain'.prefix (List.Chain'.suffix hd (List.dropWhile_suffix isSpace)) hstart
  have hclean : NoNewlineSpace (whitewash s).data :=
    singleNewlineReplace_noNewlineSpace _ false htrim
  exact ⟨hclean, hidem hclean⟩

/-- A comment of two indented lines is cleaned to one line, and cleaning that
line again changes nothing. -/
theorem whitewash_clean_witness :
    NoDoubleNewline "  hello\n    world \n".data ∧
    whitewash "  hello\n    world \n" = "hello world" ∧
    NoNewlineSpace (whitewash "  hello\n    world \n").data ∧
    whitewash (whitewash "  hello\n    world \n") = whitewash "  hello\n    world \n" :=
  have hd : NoDoubleNewline "  hello\n    world \n".data := by
    show List.Chain' _
      [' ', ' ', 'h', 'e', 'l', 'l', 'o', '\n', ' ', ' ', ' ', ' ', 'w', 'o', 'r', 'l', 'd',
        ' ', '\n']
    simp
  ⟨hd, by decide, (whitewash_clean "  hello\n    world \n").2.1 hd⟩

end Twopdocs
